import Mathlib

/-!
Verification of the NexusMarket reputation contract
(src/src/reputation/mod.rs, src/src/contract/marketplace_reputation.rs,
src/src/contract/reputation_query.rs) against its specification.

Shallow embedding conventions:
* `Addr` and review identifiers are `String`s, compared with the standard
  lexicographic order (UTF-8 byte order of the storage keys coincides with
  codepoint order for the ASCII keys the contract builds).
* `Timestamp` is a `Nat` counting nanoseconds; `seconds` mirrors
  `Timestamp::seconds` (`nanos / 1_000_000_000`).
* The three `cw-storage-plus` maps are modelled as association lists kept
  sorted by key; `Map::range(.., Order::Ascending)` is the list itself and
  `Map::save` is sorted insert-or-overwrite.  `USER_REVIEWS` (composite key
  `(&Addr, String)`, value = the review id, only ever accessed through
  `prefix(user)`) is modelled per user: address -> sorted list of review ids.
* `StdResult` is `Except ContractErr`; Rust panics (checked-arithmetic
  aborts, `Uint128::pow` overflow, division by zero) are modelled as the
  distinguished error `ContractErr.panic`, since a panic aborts the whole
  contract call just like an error return, but is observably not a
  `StdError::Overflow`.
* State-changing entry points return `Except ContractErr State`: the host
  substrate applies a returned state atomically, and an error leaves the
  store untouched (cosmwasm transactional semantics).
* `Response` attributes and string encodings of responses are out of scope
  (spec section 1 excludes response/event encoding).
-/

namespace NexusMarket

/-- `Review` record, src/src/reputation/mod.rs lines 6-18. -/
structure Review where
  id : String
  service : String
  rating : Nat              -- u8
  content : String
  reviewer : String         -- Addr
  timestamp : Nat           -- Timestamp (nanoseconds)
  transaction_proof : String
  signature : List Nat      -- Vec<u8>
  is_disputed : Bool
  dispute_reason : Option String
deriving DecidableEq

/-- `UserReputation` record, src/src/reputation/mod.rs lines 20-28. -/
structure UserReputation where
  address : String          -- Addr
  reputation_score : Nat    -- Uint128
  total_reviews : Nat       -- u32
  disputed_reviews : Nat    -- u32
  last_activity : Nat       -- Timestamp (nanoseconds)
  transaction_volume : Nat  -- Uint128
deriving DecidableEq

/-- `ReputationParams`, src/src/reputation/mod.rs lines 30-37. -/
structure ReputationParams where
  time_weight_factor : Nat      -- u32
  volume_weight_factor : Nat    -- u32
  dispute_penalty : Nat         -- u32
  inactivity_decay_period : Nat -- u64 (seconds)
  decay_rate : Nat              -- u32
deriving DecidableEq

/-- Errors of a contract call.  `invalidInput`, `notFound` and `overflow`
are the `StdError` variants the code produces; `panic` stands for a Rust
panic (checked-arithmetic abort / `Uint128::pow` overflow / division by
zero), which aborts the call but is not a returned `StdError`. -/
inductive ContractErr where
  | invalidInput
  | notFound
  | overflow
  | panic
deriving DecidableEq

instance {ε α : Type} [DecidableEq ε] [DecidableEq α] : DecidableEq (Except ε α) := fun
  | .error a, .error b =>
    match decEq a b with
    | isTrue h => isTrue (h ▸ rfl)
    | isFalse h => isFalse (fun he => h (by injection he))
  | .error _, .ok _ => isFalse (fun h => Except.noConfusion h)
  | .ok _, .error _ => isFalse (fun h => Except.noConfusion h)
  | .ok a, .ok b =>
    match decEq a b with
    | isTrue h => isTrue (h ▸ rfl)
    | isFalse h => isFalse (fun he => h (by injection he))

/-- `Timestamp::seconds()`: nanoseconds to seconds. -/
def seconds (nanos : Nat) : Nat := nanos / 1000000000

/-- One past the largest `u32` value; `as u32` truncates modulo this. -/
def U32 : Nat := 4294967296

/-- One past the largest `Uint128` value. -/
def U128 : Nat := 340282366920938463463374607431768211456

/-! ## Storage-key order

`cw-storage-plus` maps iterate in ascending byte order of the key.  For the
ASCII keys built by this contract, byte order equals codepoint order, which
`charListLt`/`strLt` implement structurally (the built-in `String` order is
defined by well-founded recursion and does not reduce in the kernel). -/

/-- Lexicographic codepoint order on character lists. -/
def charListLt : List Char → List Char → Bool
  | [], [] => false
  | [], _ :: _ => true
  | _ :: _, [] => false
  | a :: as, b :: bs =>
    if a.toNat < b.toNat then true
    else if a.toNat = b.toNat then charListLt as bs
    else false

/-- Lexicographic order on strings, the iteration order of the stores. -/
def strLt (a b : String) : Bool := charListLt a.data b.data

/-! ## Sorted association lists: the storage model -/

/-- `Map::load` / `Map::may_load`: first entry with the given key. -/
def lookupS {α : Type} : List (String × α) → String → Option α
  | [], _ => none
  | (k', v) :: rest, k => if k = k' then some v else lookupS rest k

/-- `Map::save`: insert-or-overwrite, keeping the list sorted by key. -/
def insertS {α : Type} (k : String) (v : α) : List (String × α) → List (String × α)
  | [] => [(k, v)]
  | (k', v') :: rest =>
    if strLt k k' then (k, v) :: (k', v') :: rest
    else if k = k' then (k, v) :: rest
    else (k', v') :: insertS k v rest

/-- Sorted insert of a review id into a user's id list (no duplicates);
models `USER_REVIEWS.save((user, id), id)` within one user's prefix. -/
def insertId (k : String) : List String → List String
  | [] => [k]
  | x :: xs =>
    if strLt k x then k :: x :: xs
    else if k = x then x :: xs
    else x :: insertId k xs

/-- `USER_REVIEWS` insert: add `id` to the sorted id list of `u`. -/
def indexInsert (u id : String) : List (String × List String) → List (String × List String)
  | [] => [(u, [id])]
  | (u', ids) :: rest =>
    if strLt u u' then (u, [id]) :: (u', ids) :: rest
    else if u = u' then (u', insertId id ids) :: rest
    else (u', ids) :: indexInsert u id rest

/-- Keys strictly ascending: the representation invariant of a store. -/
@[reducible] def SortedKeys {α : Type} (l : List (String × α)) : Prop :=
  l.Pairwise (fun a b => strLt a.1 b.1 = true)

/-! ## Contract state

The durable stores declared in src/src/reputation/mod.rs lines 39-42:
`REVIEWS` (id -> Review), `USER_REVIEWS` (modelled per user: address ->
sorted list of the user's review ids, faithful to the composite-key map
because the contract only ever accesses it through `prefix(user)` and the
stored value always equals the id component of the key), `USERS`
(address -> UserReputation) and the `REPUTATION_PARAMS` singleton
(`Item::load` fails with a not-found `StdError` when it was never set). -/
structure State where
  reviews : List (String × Review)
  userReviews : List (String × List String)
  users : List (String × UserReputation)
  params : Option ReputationParams
deriving DecidableEq

/-- `USER_REVIEWS.prefix(user).range(..)`: the user's review ids in
ascending key order (the stored values, which equal the ids). -/
def indexIds (idx : List (String × List String)) (user : String) : List String :=
  (lookupS idx user).getD []

/-! ## Scoring Engine: `calculate_reputation_score`
(src/src/reputation/mod.rs lines 44-77).

`time_since_last_activity` is a `u64` subtraction (line 52), which aborts
on underflow in an overflow-checked build.  The decay branch divides by
`inactivity_decay_period` (aborts when it is zero), truncates the period
count with `as u32` (line 55), and computes `Uint128::pow`, which panics
when the power exceeds `Uint128::MAX`.  `multiply_ratio` (line 62) panics
when the 256-bit intermediate divided by 100 does not fit in 128 bits.
The dispute penalty (line 66) is a raw `u32` multiplication, which aborts
on overflow in a checked build.  Only `checked_mul`/`checked_add`
(lines 72-74) return a genuine overflow `StdError` through `?`. -/

/-- Lines 52-58: the `time_weight` value (as an `Except` to record the
abort points inside the decay branch). -/
def timeWeightStep (params : ReputationParams) (elapsed : Nat) : Except ContractErr Nat :=
  if params.inactivity_decay_period < elapsed then
    if params.inactivity_decay_period = 0 then .error .panic
    else
      let decay_periods := elapsed / params.inactivity_decay_period % U32
      if params.decay_rate ^ decay_periods < U128 then .ok (params.decay_rate ^ decay_periods)
      else .error .panic
  else .ok params.time_weight_factor

/-- Lines 60-62: `transaction_volume.multiply_ratio(volume_weight_factor, 100)`. -/
def volumeWeightStep (user : UserReputation) (params : ReputationParams) :
    Except ContractErr Nat :=
  if user.transaction_volume * params.volume_weight_factor / 100 < U128 then
    .ok (user.transaction_volume * params.volume_weight_factor / 100)
  else .error .panic

/-- Lines 64-69: the dispute penalty (`u32` product). -/
def disputePenaltyStep (user : UserReputation) (params : ReputationParams) :
    Except ContractErr Nat :=
  if 0 < user.disputed_reviews then
    if user.disputed_reviews * params.dispute_penalty < U32 then
      .ok (user.disputed_reviews * params.dispute_penalty)
    else .error .panic
  else .ok 0

/-- `calculate_reputation_score`, src/src/reputation/mod.rs lines 44-77. -/
def calculate_reputation_score (user : UserReputation) (params : ReputationParams)
    (current_time : Nat) : Except ContractErr Nat :=
  let base_score := user.total_reviews - user.disputed_reviews
  if seconds current_time < seconds user.last_activity then .error .panic
  else
    match timeWeightStep params (seconds current_time - seconds user.last_activity) with
    | .error e => .error e
    | .ok time_weight =>
      match volumeWeightStep user params with
      | .error e => .error e
      | .ok volume_weight =>
        match disputePenaltyStep user params with
        | .error e => .error e
        | .ok dispute_penalty =>
          if base_score * time_weight < U128 then
            if base_score * time_weight + volume_weight < U128 then
              .ok (base_score * time_weight + volume_weight - dispute_penalty)
            else .error .overflow
          else .error .overflow

/-! ## Reputation Aggregator and workflows
(src/src/contract/marketplace_reputation.rs). -/

/-- The zeroed default record synthesized by `unwrap_or`
(marketplace_reputation.rs lines 82-89). -/
def defaultRep (user : String) (now : Nat) : UserReputation :=
  { address := user, reputation_score := 0, total_reviews := 0, disputed_reviews := 0,
    last_activity := now, transaction_volume := 0 }

/-- Lines 94-101: resolve every indexed review id in the ledger;
`REVIEWS.load` fails with a not-found `StdError` on a dangling id and the
whole collection aborts. -/
def resolveAll (ids : List String) (reviews : List (String × Review)) :
    Except ContractErr (List Review) :=
  match ids with
  | [] => .ok []
  | id :: rest =>
    match lookupS reviews id with
    | none => .error .notFound
    | some r =>
      match resolveAll rest reviews with
      | .error e => .error e
      | .ok rs => .ok (r :: rs)

/-- The loaded-or-default record after the aggregator's field updates
(marketplace_reputation.rs lines 82-89 and 103-105): counts recomputed
from the resolved reviews (`len() as u32` truncates modulo 2^32) and
`last_activity` overwritten with `env.block.time` — note this happens
BEFORE the score is computed at line 108. -/
def aggRep (st : State) (user : String) (now : Nat) (revs : List Review) :
    UserReputation :=
  { (lookupS st.users user).getD (defaultRep user now) with
    total_reviews := revs.length % U32,
    disputed_reviews := (revs.filter (fun r => r.is_disputed)).length % U32,
    last_activity := now }

/-- The record the aggregator persists when recomputation succeeds:
`aggRep` with `reputation_score` overwritten by the Scoring Engine result
(marketplace_reputation.rs lines 108-110). -/
def recomputedRep (st : State) (user : String) (now : Nat) (revs : List Review)
    (score : Nat) : UserReputation :=
  { aggRep st user now revs with reputation_score := score }

/-- `update_user_reputation`, marketplace_reputation.rs lines 81-113. -/
def update_user_reputation (st : State) (user : String) (now : Nat) :
    Except ContractErr State :=
  match st.params with
  | none => .error .notFound
  | some params =>
    match resolveAll (indexIds st.userReviews user) st.reviews with
    | .error e => .error e
    | .ok reviews =>
      match calculate_reputation_score (aggRep st user now reviews) params now with
      | .error e => .error e
      | .ok score =>
        .ok { st with users := insertS user (recomputedRep st user now reviews score) st.users }

/-- Review id construction, marketplace_reputation.rs line 26:
`format!("{}-{}", env.block.time.seconds(), info.sender)`. -/
def mkReviewId (now : Nat) (sender : String) : String :=
  toString (seconds now) ++ "-" ++ sender

/-- The `Review` constructed by `submit_review`, marketplace_reputation.rs
lines 28-39 (`is_disputed = false`, `dispute_reason = None`). -/
def mkReview (now : Nat) (sender service : String) (rating : Nat)
    (content transaction_proof : String) (signature : List Nat) : Review :=
  { id := mkReviewId now sender, service := service, rating := rating,
    content := content, reviewer := sender, timestamp := now,
    transaction_proof := transaction_proof, signature := signature,
    is_disputed := false, dispute_reason := none }

/-- The store after the two writes of `submit_review` (lines 42-43):
`REVIEWS.save` then `USER_REVIEWS.save`, both keyed on the derived id. -/
def submitState (st : State) (now : Nat) (sender service : String) (rating : Nat)
    (content transaction_proof : String) (signature : List Nat) : State :=
  { st with
    reviews := insertS (mkReviewId now sender)
      (mkReview now sender service rating content transaction_proof signature) st.reviews,
    userReviews := indexInsert sender (mkReviewId now sender) st.userReviews }

/-- `submit_review`, marketplace_reputation.rs lines 5-53.  The
transaction-proof verifier (line 21) is the stub that returns true, so its
failure branch is unreachable; `Response` attributes are not modelled.
An error leaves the store untouched (transactional execution). -/
def submit_review (st : State) (now : Nat) (sender : String) (service : String)
    (rating : Nat) (content : String) (transaction_proof : String)
    (signature : List Nat) : Except ContractErr State :=
  if rating < 1 ∨ 5 < rating then .error .invalidInput
  else
    update_user_reputation
      (submitState st now sender service rating content transaction_proof signature)
      sender now

/-- The dispute mutation of `flag_dispute` (lines 67-68):
`is_disputed = true`, `dispute_reason = Some(reason)`. -/
def flaggedReview (review : Review) (reason : String) : Review :=
  { review with is_disputed := true, dispute_reason := some reason }

/-- The store after the overwrite of `flag_dispute` (line 69). -/
def flagState (st : State) (review_id : String) (review : Review) (reason : String) :
    State :=
  { st with reviews := insertS review_id (flaggedReview review reason) st.reviews }

/-- `flag_dispute`, marketplace_reputation.rs lines 55-79.  `sender` (the
caller) is only echoed in response attributes; the recomputation target is
the stored review's `reviewer` (line 72). -/
def flag_dispute (st : State) (now : Nat) (sender : String) (review_id : String)
    (reason : String) : Except ContractErr State :=
  match lookupS st.reviews review_id with
  | none => .error .notFound
  | some review =>
    update_user_reputation (flagState st review_id review reason) review.reviewer now

/-! ## Query Engine (src/src/contract/reputation_query.rs).

Queries only read; they return their response directly.  The `to_string`
encodings of `reviewer`/`timestamp` in the Rust response structs are kept
as the underlying values (response encoding is out of scope per spec
section 1). -/

/-- `DEFAULT_LIMIT`, reputation_query.rs line 8. -/
def DEFAULT_LIMIT : Nat := 10

/-- `MAX_LIMIT`, reputation_query.rs line 9. -/
def MAX_LIMIT : Nat := 30

/-- `ReviewResponse`, reputation_query.rs lines 11-21. -/
structure ReviewResponse where
  id : String
  service : String
  rating : Nat
  content : String
  reviewer : String
  timestamp : Nat
  is_disputed : Bool
  dispute_reason : Option String
deriving DecidableEq

/-- `UserReputationResponse`, reputation_query.rs lines 23-31. -/
structure UserReputationResponse where
  address : String
  reputation_score : Nat
  total_reviews : Nat
  disputed_reviews : Nat
  last_activity : Nat
  transaction_volume : Nat
deriving DecidableEq

/-- The rating filter of `query_reviews`, reputation_query.rs lines 56-61. -/
def ratingInRange (min_rating max_rating : Option Nat) (r : Nat) : Bool :=
  match min_rating, max_rating with
  | some mn, some mx => decide (mn ≤ r) && decide (r ≤ mx)
  | some mn, none => decide (mn ≤ r)
  | none, some mx => decide (r ≤ mx)
  | none, none => true

/-- Response projection of `query_reviews`, reputation_query.rs lines 70-79. -/
def toResponse (r : Review) : ReviewResponse :=
  { id := r.id, service := r.service, rating := r.rating, content := r.content,
    reviewer := r.reviewer, timestamp := r.timestamp, is_disputed := r.is_disputed,
    dispute_reason := r.dispute_reason }

/-- The range scanned by `query_reviews` (line 50 and 53):
`Bound::exclusive` on the sorted ledger keeps the entries with key
strictly above the cursor. -/
def queryEntries (st : State) (start_after : Option String) :
    List (String × Review) :=
  match start_after with
  | none => st.reviews
  | some c => st.reviews.filter (fun kv => strLt c kv.1)

/-- The filter closure of `query_reviews`, reputation_query.rs
lines 54-66. -/
def queryPred (min_rating max_rating : Option Nat) (include_disputed : Bool)
    (kv : String × Review) : Bool :=
  ratingInRange min_rating max_rating kv.2.rating
    && (include_disputed || !kv.2.is_disputed)

/-- `query_reviews`, reputation_query.rs lines 41-84.  Iteration never
fails, so the `StdResult` is always `Ok` and the response list is
returned directly. -/
def query_reviews (st : State) (start_after : Option String) (limit : Option Nat)
    (min_rating max_rating : Option Nat) (include_disputed : Bool) :
    List ReviewResponse :=
  (((queryEntries st start_after).filter
      (queryPred min_rating max_rating include_disputed)).take
    (min (limit.getD DEFAULT_LIMIT) MAX_LIMIT)).map (fun kv => toResponse kv.2)

/-- The time-window filter of `query_user_reputation`,
reputation_query.rs lines 102-109 (`Timestamp` comparisons are on the
nanosecond values). -/
def windowOk (start_time end_time : Option Nat) (r : Review) : Bool :=
  match start_time, end_time with
  | some s, some e => decide (s ≤ r.timestamp) && decide (r.timestamp ≤ e)
  | some s, none => decide (s ≤ r.timestamp)
  | none, some e => decide (r.timestamp ≤ e)
  | none, none => true

/-- `query_user_reputation`, reputation_query.rs lines 86-132.  The filter
closure (lines 99-116) returns `false` both for an out-of-window review
and for an index entry whose id does not resolve in the ledger, so a
dangling entry is silently dropped; the subsequent reload (lines 117-121)
only sees ids that already resolved.  `addr_validate` is the identity on
the address strings of the model. -/
def query_user_reputation (st : State) (user : String)
    (start_time end_time : Option Nat) : Except ContractErr UserReputationResponse :=
  match lookupS st.users user with
  | none => .error .notFound
  | some user_rep =>
    let reviews := (indexIds st.userReviews user).filterMap (fun id =>
      match lookupS st.reviews id with
      | none => none
      | some r => if windowOk start_time end_time r then some r else none)
    .ok { address := user_rep.address,
          reputation_score := user_rep.reputation_score,
          total_reviews := reviews.length % U32,
          disputed_reviews := (reviews.filter (fun r => r.is_disputed)).length % U32,
          last_activity := user_rep.last_activity,
          transaction_volume := user_rep.transaction_volume }

/-! ## Spec-side scoring formula (spec.md section 4.3)

`scoreSpec` renders the Scoring Engine formula as the source computes it
(exponent truncated by the `as u32` cast); `scoreClaimed` renders the
formula exactly as the spec words it (untruncated exponent).  Comparing
the two against `calculate_reputation_score` settles the refinement
claims. -/

/-- Step 1 of spec 4.3: `base = total_reviews - disputed_reviews`,
saturating at zero. -/
def baseSpec (u : UserReputation) : Nat := u.total_reviews - u.disputed_reviews

/-- Step 2 of spec 4.3: `elapsed = now - last_activity` in seconds. -/
def elapsedSec (u : UserReputation) (t : Nat) : Nat :=
  seconds t - seconds u.last_activity

/-- Step 3 of spec 4.3 as implemented: the exponent is reduced modulo
2^32 by the `as u32` cast. -/
def timeWeightSpec (p : ReputationParams) (e : Nat) : Nat :=
  if p.inactivity_decay_period < e then
    p.decay_rate ^ (e / p.inactivity_decay_period % U32)
  else p.time_weight_factor

/-- Step 3 of spec 4.3 exactly as worded: `timeWeight = decay_rate ^
(elapsed / inactivity_decay_period)`, no truncation. -/
def timeWeightClaimed (p : ReputationParams) (e : Nat) : Nat :=
  if p.inactivity_decay_period < e then
    p.decay_rate ^ (e / p.inactivity_decay_period)
  else p.time_weight_factor

/-- Step 4 of spec 4.3: `volumeWeight = transaction_volume *
volume_weight_factor / 100`, truncating. -/
def volumeWeightSpec (u : UserReputation) (p : ReputationParams) : Nat :=
  u.transaction_volume * p.volume_weight_factor / 100

/-- Step 5 of spec 4.3: per-dispute penalty. -/
def disputePenaltySpec (u : UserReputation) (p : ReputationParams) : Nat :=
  if 0 < u.disputed_reviews then u.disputed_reviews * p.dispute_penalty else 0

/-- Steps 6-7 of spec 4.3 with the implemented (truncated) time weight;
`Nat` subtraction is the saturating `max(0, ...)`. -/
def scoreSpec (u : UserReputation) (p : ReputationParams) (t : Nat) : Nat :=
  baseSpec u * timeWeightSpec p (elapsedSec u t) + volumeWeightSpec u p
    - disputePenaltySpec u p

/-- Steps 6-7 of spec 4.3 exactly as the claim words them (untruncated
decay exponent). -/
def scoreClaimed (u : UserReputation) (p : ReputationParams) (t : Nat) : Nat :=
  baseSpec u * timeWeightClaimed p (elapsedSec u t) + volumeWeightSpec u p
    - disputePenaltySpec u p

/-! ## Concrete fixtures (the parameter set of spec section 8 and of
src/src/tests/reputation_tests.rs, plus the inputs of the
counterexamples). -/

/-- Scenario parameters of spec section 8 / reputation_tests.rs. -/
def pFix : ReputationParams :=
  { time_weight_factor := 10, volume_weight_factor := 5, dispute_penalty := 20,
    inactivity_decay_period := 2592000, decay_rate := 95 }

/-- A stored rating-5 review of user `u1` submitted at 5 seconds. -/
def rFix : Review :=
  { id := "5-u1", service := "s1", rating := 5, content := "good", reviewer := "u1",
    timestamp := 5000000000, transaction_proof := "proof", signature := [1],
    is_disputed := false, dispute_reason := none }

/-- The stored aggregate of the C1 scenario: `last_activity = 0`. -/
def recC1 : UserReputation :=
  { address := "u1", reputation_score := 10, total_reviews := 1,
    disputed_reviews := 0, last_activity := 0, transaction_volume := 0 }

/-- State for the C1 scenario: one ledger review for `u1`, stored
aggregate with `last_activity = 0`. -/
def stC1 : State :=
  { reviews := [("5-u1", rFix)],
    userReviews := [("u1", ["5-u1"])],
    users := [("u1", recC1)],
    params := some pFix }

/-- Recomputation time for C1: six full decay periods after the stored
`last_activity`. -/
def nowC1 : Nat := 2592000 * 6 * 1000000000

/-- C2 counterexample record: one review, nothing else. -/
def uC2 : UserReputation :=
  { address := "u", reputation_score := 0, total_reviews := 1, disputed_reviews := 0,
    last_activity := 0, transaction_volume := 0 }

/-- C2 counterexample parameters: decay base 2, one-second period. -/
def pC2 : ReputationParams :=
  { time_weight_factor := 1, volume_weight_factor := 0, dispute_penalty := 0,
    inactivity_decay_period := 1, decay_rate := 2 }

/-- 130 seconds: the decay power is 2^130 > Uint128::MAX. -/
def tC2 : Nat := 130000000000

/-- C3 counterexample parameters: decay base 0, one-second period. -/
def pC3 : ReputationParams :=
  { time_weight_factor := 7, volume_weight_factor := 0, dispute_penalty := 0,
    inactivity_decay_period := 1, decay_rate := 0 }

/-- 2^32 seconds: the period count is 2^32, which `as u32` truncates
to 0. -/
def tC3 : Nat := 4294967296000000000

/-- C3 second counterexample parameters: a zero decay period. -/
def pC3b : ReputationParams :=
  { time_weight_factor := 7, volume_weight_factor := 0, dispute_penalty := 0,
    inactivity_decay_period := 0, decay_rate := 3 }

/-! ## Index/ledger synchronisation -/

/-- The ledger keys whose stored review satisfies `p`, in ledger order. -/
def filterKeys (p : Review → Bool) (l : List (String × Review)) : List String :=
  (l.filter (fun kv => p kv.2)).map (fun kv => kv.1)

/-- The ledger keys belonging to reviewer `u`, in ledger order. -/
def fkeys (u : String) (l : List (String × Review)) : List String :=
  filterKeys (fun r => decide (r.reviewer = u)) l

/-- The reachable-state invariant relating one user's index partition to
the ledger: the indexed ids of `u` are exactly the ledger keys whose review
has `reviewer == u` (spec 4.2: the Index is a consistent mirror of the
Ledger, written in the same operation). -/
@[reducible] def IndexSyncAt (st : State) (u : String) : Prop :=
  indexIds st.userReviews u = fkeys u st.reviews

/-- The reviews of reviewer `u`, in ledger order. -/
def ledgerReviews (st : State) (u : String) : List Review :=
  (st.reviews.filter (fun kv => decide (kv.2.reviewer = u))).map (fun kv => kv.2)

/-- Number of Ledger entries whose review has `reviewer == u`. -/
def ledgerCount (st : State) (u : String) : Nat :=
  (st.reviews.filter (fun kv => decide (kv.2.reviewer = u))).length

/-- Number of those entries whose review has `is_disputed == true`. -/
def ledgerDisputedCount (st : State) (u : String) : Nat :=
  ((st.reviews.filter (fun kv => decide (kv.2.reviewer = u))).filter
    (fun kv => kv.2.is_disputed)).length

/-- The stored aggregate for `u` agrees with the authoritative Ledger. -/
def CountsOk (st : State) (u : String) : Prop :=
  ∃ rec, lookupS st.users u = some rec ∧
    rec.total_reviews = ledgerCount st u ∧
    rec.disputed_reviews = ledgerDisputedCount st u ∧
    rec.disputed_reviews ≤ rec.total_reviews

/-- Expected state after disputing the review of `stC1`: the review is
flagged and the aggregate of `u1` drops to 0 (= max(0, 0*10 + 0 - 20)). -/
def stC9 : State :=
  { reviews := [("5-u1", flaggedReview rFix "bad")],
    userReviews := [("u1", ["5-u1"])],
    users := [("u1",
      { address := "u1", reputation_score := 0, total_reviews := 1,
        disputed_reviews := 1, last_activity := nowC1, transaction_volume := 0 })],
    params := some pFix }

/-- Empty state with the fixture parameters, for the C4 witness. -/
def stEmpty : State :=
  { reviews := [], userReviews := [], users := [], params := some pFix }

/-- State after `u1` submits one rating-5 review to the empty store at
5 seconds (Scenario A of spec section 8: score 10). -/
def stAfterSubmit : State :=
  { reviews := [("5-u1", mkReview 5000000000 "u1" "s1" 5 "good" "proof" [1])],
    userReviews := [("u1", ["5-u1"])],
    users := [("u1",
      { address := "u1", reputation_score := 10, total_reviews := 1,
        disputed_reviews := 0, last_activity := 5000000000,
        transaction_volume := 0 })],
    params := some pFix }

/-- Second ledger review for the C8 witness (rating 2). -/
def rQ2 : Review :=
  { rFix with id := "3-u2", rating := 2, reviewer := "u2", timestamp := 3000000000 }

/-- Third ledger review for the C8 witness (rating 4, disputed). -/
def rQ3 : Review :=
  { rFix with
    id := "7-u3", rating := 4, reviewer := "u3", timestamp := 7000000000,
    is_disputed := true, dispute_reason := some "d" }

/-- Three-review ledger for the C8 witness. -/
def stQ : State :=
  { reviews := [("3-u2", rQ2), ("5-u1", rFix), ("7-u3", rQ3)],
    userReviews := [], users := [], params := some pFix }

/-- State with a dangling index entry for the C10 witness. -/
def stC10 : State :=
  { reviews := [], userReviews := [("u1", ["5-u1"])], users := [("u1", recC1)],
    params := some pFix }

/-! ## Lemmas and claim theorems -/

theorem u128_eq : U128 = 2 ^ 128 := by decide

theorem u32_eq : U32 = 2 ^ 32 := by decide

theorem char_toNat_inj {a b : Char} (h : a.toNat = b.toNat) : a = b :=
  Char.eq_of_val_eq (UInt32.toNat.inj h)

theorem charListLt_irrefl (l : List Char) : charListLt l l = false := by
  induction l with
  | nil => rfl
  | cons a as ih => simp [charListLt, ih]

theorem charListLt_asymm : ∀ {l₁ l₂ : List Char},
    charListLt l₁ l₂ = true → charListLt l₂ l₁ = false
  | [], [], h => by simp [charListLt] at h
  | [], _ :: _, _ => rfl
  | _ :: _, [], h => by simp [charListLt] at h
  | a :: as, b :: bs, h => by
    simp only [charListLt] at h ⊢
    split_ifs at h ⊢ with h1 h2 h3 h4 <;> try omega
    · exact charListLt_asymm h
    · rfl

theorem charListLt_trans : ∀ {l₁ l₂ l₃ : List Char},
    charListLt l₁ l₂ = true → charListLt l₂ l₃ = true → charListLt l₁ l₃ = true
  | [], _, _ :: _, _, _ => rfl
  | [], l₂, [], _, h2 => by cases l₂ <;> simp [charListLt] at h2
  | _ :: _, l₂, [], h1, h2 => by cases l₂ <;> simp [charListLt] at h1 h2
  | a :: as, l₂, c :: cs, h1, h2 => by
    cases l₂ with
    | nil => simp [charListLt] at h1
    | cons b bs =>
      simp only [charListLt] at h1 h2 ⊢
      split_ifs at h1 h2 ⊢ with h' <;> try omega
      all_goals try rfl
      all_goals exact charListLt_trans h1 h2

theorem charListLt_eq_of_not : ∀ {l₁ l₂ : List Char},
    charListLt l₁ l₂ = false → charListLt l₂ l₁ = false → l₁ = l₂
  | [], [], _, _ => rfl
  | [], _ :: _, h1, _ => by simp [charListLt] at h1
  | _ :: _, [], _, h2 => by simp [charListLt] at h2
  | a :: as, b :: bs, h1, h2 => by
    simp only [charListLt] at h1 h2
    by_cases hlt : a.toNat < b.toNat
    · rw [if_pos hlt] at h1
      exact absurd h1 (by simp)
    · by_cases heq : a.toNat = b.toNat
      · have hba : ¬ b.toNat < a.toNat := by omega
        rw [if_neg hlt, if_pos heq] at h1
        rw [if_neg hba, if_pos heq.symm] at h2
        rw [char_toNat_inj heq, charListLt_eq_of_not h1 h2]
      · have hba : b.toNat < a.toNat := by omega
        rw [if_pos hba] at h2
        exact absurd h2 (by simp)

theorem strLt_irrefl (a : String) : strLt a a = false := charListLt_irrefl _

theorem strLt_asymm {a b : String} (h : strLt a b = true) : strLt b a = false :=
  charListLt_asymm h

theorem strLt_trans {a b c : String} (h1 : strLt a b = true) (h2 : strLt b c = true) :
    strLt a c = true := charListLt_trans h1 h2

theorem strLt_eq_of_not {a b : String} (h1 : strLt a b = false) (h2 : strLt b a = false) :
    a = b := by
  have h := charListLt_eq_of_not h1 h2
  cases a; cases b
  exact congrArg String.mk h

theorem strLt_ne {a b : String} (h : strLt a b = true) : a ≠ b := by
  intro he; rw [he, strLt_irrefl] at h; exact Bool.noConfusion h

theorem strLt_total {a b : String} (h1 : strLt a b = false) (hne : a ≠ b) :
    strLt b a = true := by
  cases hb : strLt b a with
  | true => rfl
  | false => exact absurd (strLt_eq_of_not h1 hb) hne

theorem lookupS_insertS_self {α : Type} (k : String) (v : α) (l : List (String × α)) :
    lookupS (insertS k v l) k = some v := by
  induction l with
  | nil => simp [insertS, lookupS]
  | cons kv rest ih =>
    obtain ⟨k', v'⟩ := kv
    simp only [insertS]
    split_ifs with h1 h2
    · simp [lookupS]
    · simp [lookupS]
    · have hne : k ≠ k' := h2
      simp [lookupS, hne, ih]

theorem lookupS_insertS_ne {α : Type} {k k' : String} (v : α) (l : List (String × α))
    (h : k' ≠ k) : lookupS (insertS k v l) k' = lookupS l k' := by
  induction l with
  | nil => simp [insertS, lookupS, h]
  | cons kv rest ih =>
    obtain ⟨k₁, v₁⟩ := kv
    simp only [insertS]
    split_ifs with h1 h2
    · simp [lookupS, h]
    · subst h2; simp [lookupS, h]
    · by_cases hk : k' = k₁ <;> simp [lookupS, hk, ih]

theorem insertS_idem {α : Type} (k : String) (v : α) (l : List (String × α)) :
    insertS k v (insertS k v l) = insertS k v l := by
  induction l with
  | nil => simp [insertS, strLt_irrefl]
  | cons kv rest ih =>
    obtain ⟨k₁, v₁⟩ := kv
    simp only [insertS]
    split_ifs with h1 h2
    · simp [insertS, strLt_irrefl]
    · simp [insertS, strLt_irrefl]
    · have h1' : strLt k k₁ = false := by
        cases h : strLt k k₁ with
        | true => exact absurd h h1
        | false => rfl
      simp [insertS, h1', h2, ih]

theorem mem_insertS {α : Type} {kv : String × α} {k : String} {v : α}
    {l : List (String × α)} (h : kv ∈ insertS k v l) : kv = (k, v) ∨ kv ∈ l := by
  induction l with
  | nil => simpa [insertS] using h
  | cons kv₁ rest ih =>
    obtain ⟨k₁, v₁⟩ := kv₁
    simp only [insertS] at h
    split_ifs at h with h1 h2
    · rcases List.mem_cons.mp h with h' | h'
      · exact Or.inl h'
      · exact Or.inr h'
    · rcases List.mem_cons.mp h with h' | h'
      · exact Or.inl h'
      · exact Or.inr (List.mem_cons_of_mem _ h')
    · rcases List.mem_cons.mp h with h' | h'
      · exact Or.inr (h' ▸ List.mem_cons_self _ _)
      · rcases ih h' with h'' | h''
        · exact Or.inl h''
        · exact Or.inr (List.mem_cons_of_mem _ h'')

theorem sorted_insertS {α : Type} (k : String) (v : α) {l : List (String × α)}
    (hs : SortedKeys l) : SortedKeys (insertS k v l) := by
  unfold SortedKeys at hs ⊢
  induction l with
  | nil => simp [insertS]
  | cons kv₁ rest ih =>
    obtain ⟨k₁, v₁⟩ := kv₁
    obtain ⟨hall, hrest⟩ := List.pairwise_cons.mp hs
    simp only [insertS]
    split_ifs with h1 h2
    · refine List.Pairwise.cons ?_ (List.Pairwise.cons hall hrest)
      intro kv hkv
      rcases List.mem_cons.mp hkv with h' | h'
      · rw [h']; exact h1
      · exact strLt_trans h1 (hall _ h')
    · subst h2
      exact List.Pairwise.cons hall hrest
    · refine List.Pairwise.cons ?_ (ih hrest)
      intro kv hkv
      rcases mem_insertS hkv with h' | h'
      · rw [h']
        refine strLt_total ?_ h2
        cases h : strLt k k₁ with
        | true => exact absurd h h1
        | false => rfl
      · exact hall _ h'

theorem length_insertS_le {α : Type} (k : String) (v : α) (l : List (String × α)) :
    (insertS k v l).length ≤ l.length + 1 := by
  induction l with
  | nil => simp [insertS]
  | cons kv₁ rest ih =>
    obtain ⟨k₁, v₁⟩ := kv₁
    simp only [insertS]
    split_ifs <;> simp only [List.length_cons] <;> omega

theorem lookupS_of_mem {α : Type} {l : List (String × α)} {k : String} {v : α}
    (hs : SortedKeys l) (h : (k, v) ∈ l) : lookupS l k = some v := by
  induction l with
  | nil => simp at h
  | cons kv₁ rest ih =>
    obtain ⟨k₁, v₁⟩ := kv₁
    obtain ⟨hall, hrest⟩ := List.pairwise_cons.mp hs
    rcases List.mem_cons.mp h with h' | h'
    · injection h' with hk hv
      simp [lookupS, hk, hv]
    · have hk : k ≠ k₁ := by
        intro he
        have hlt : strLt k₁ k = true := hall _ h'
        rw [he, strLt_irrefl] at hlt
        exact Bool.noConfusion hlt
      simp only [lookupS, if_neg hk]
      exact ih hrest h'

theorem mem_of_lookupS {α : Type} {l : List (String × α)} {k : String} {v : α}
    (h : lookupS l k = some v) : (k, v) ∈ l := by
  induction l with
  | nil => simp [lookupS] at h
  | cons kv₁ rest ih =>
    obtain ⟨k₁, v₁⟩ := kv₁
    simp only [lookupS] at h
    split_ifs at h with h1
    · injection h with h
      rw [h1, h]
      exact List.mem_cons_self _ _
    · exact List.mem_cons_of_mem _ (ih h)

theorem lookupS_eq_none {α : Type} {l : List (String × α)} {k : String}
    (h : ∀ kv ∈ l, kv.1 ≠ k) : lookupS l k = none := by
  induction l with
  | nil => rfl
  | cons kv₁ rest ih =>
    obtain ⟨k₁, v₁⟩ := kv₁
    have h1 : k ≠ k₁ := fun he => h (k₁, v₁) (List.mem_cons_self _ _) he.symm
    simp [lookupS, h1]
    exact ih fun kv hkv => h kv (List.mem_cons_of_mem _ hkv)

theorem indexIds_indexInsert_self {idx : List (String × List String)}
    (hs : SortedKeys idx) (u id : String) :
    indexIds (indexInsert u id idx) u = insertId id (indexIds idx u) := by
  induction idx with
  | nil => simp [indexInsert, indexIds, lookupS, insertId]
  | cons kv rest ih =>
    obtain ⟨u₁, ids₁⟩ := kv
    obtain ⟨hall, hrest⟩ := List.pairwise_cons.mp hs
    simp only [indexInsert]
    split_ifs with h1 h2
    · -- fresh entry in front; `u` cannot occur further down the sorted list
      have hnone : lookupS rest u = none := lookupS_eq_none (fun kv hkv => by
        intro he
        have h2 := hall _ hkv
        rw [he] at h2
        rw [strLt_asymm h2] at h1
        exact Bool.noConfusion h1)
      have hne : u ≠ u₁ := strLt_ne h1
      simp [indexIds, lookupS, hne, hnone, insertId]
    · subst h2
      simp [indexIds, lookupS]
    · have hne : u ≠ u₁ := h2
      simp only [indexIds, lookupS, if_neg hne] at ih ⊢
      exact ih hrest

theorem indexIds_indexInsert_ne {idx : List (String × List String)}
    (u id u' : String) (h : u' ≠ u) :
    indexIds (indexInsert u id idx) u' = indexIds idx u' := by
  induction idx with
  | nil => simp [indexInsert, indexIds, lookupS, h]
  | cons kv rest ih =>
    obtain ⟨u₁, ids₁⟩ := kv
    simp only [indexInsert]
    split_ifs with h1 h2
    · simp [indexIds, lookupS, h]
    · subst h2
      simp [indexIds, lookupS, h]
    · by_cases hu : u' = u₁ <;> simp only [indexIds, lookupS, hu, if_pos, if_neg] at ih ⊢ <;>
        simp [hu, ih]

/-! ## Inversion lemmas for the aggregator -/

theorem update_ok_inv {st : State} {user : String} {now : Nat} {st' : State}
    (h : update_user_reputation st user now = .ok st') :
    ∃ p revs score,
      st.params = some p ∧
      resolveAll (indexIds st.userReviews user) st.reviews = .ok revs ∧
      calculate_reputation_score (aggRep st user now revs) p now = .ok score ∧
      st' = { st with users := insertS user (recomputedRep st user now revs score) st.users } := by
  unfold update_user_reputation at h
  split at h
  · exact absurd h (by simp)
  rename_i p hp
  split at h
  · exact absurd h (by simp)
  rename_i revs hr
  split at h
  · exact absurd h (by simp)
  rename_i score hc
  refine ⟨p, revs, score, hp, hr, hc, ?_⟩
  injection h with h
  exact h.symm

theorem update_ok_of {st : State} {user : String} {now : Nat} {p : ReputationParams}
    {revs : List Review} {score : Nat}
    (hp : st.params = some p)
    (hr : resolveAll (indexIds st.userReviews user) st.reviews = .ok revs)
    (hc : calculate_reputation_score (aggRep st user now revs) p now = .ok score) :
    update_user_reputation st user now =
      .ok { st with users := insertS user (recomputedRep st user now revs score) st.users } := by
  unfold update_user_reputation
  simp only [hp, hr, hc]

theorem update_resolve_err {st : State} {user : String} {now : Nat}
    {p : ReputationParams} {e : ContractErr} (hp : st.params = some p)
    (hr : resolveAll (indexIds st.userReviews user) st.reviews = .error e) :
    update_user_reputation st user now = .error e := by
  unfold update_user_reputation
  rw [hp, hr]

/-! ## Characterization of the Scoring Engine steps -/

theorem timeWeightStep_ok_inv {p : ReputationParams} {e : Nat} {w : Nat}
    (h : timeWeightStep p e = .ok w) : w = timeWeightSpec p e := by
  simp only [timeWeightStep] at h
  unfold timeWeightSpec
  by_cases h1 : p.inactivity_decay_period < e
  · rw [if_pos h1] at h
    rw [if_pos h1]
    by_cases h2 : p.inactivity_decay_period = 0
    · rw [if_pos h2] at h
      exact absurd h (by simp)
    · rw [if_neg h2] at h
      by_cases h3 : p.decay_rate ^ (e / p.inactivity_decay_period % U32) < U128
      · rw [if_pos h3] at h
        injection h with h
        exact h.symm
      · rw [if_neg h3] at h
        exact absurd h (by simp)
  · rw [if_neg h1] at h
    rw [if_neg h1]
    injection h with h
    exact h.symm

theorem timeWeightStep_err_inv {p : ReputationParams} {e : Nat} {e' : ContractErr}
    (h : timeWeightStep p e = .error e') : e' = .panic := by
  simp only [timeWeightStep] at h
  by_cases h1 : p.inactivity_decay_period < e
  · rw [if_pos h1] at h
    by_cases h2 : p.inactivity_decay_period = 0
    · rw [if_pos h2] at h
      injection h with h
      exact h.symm
    · rw [if_neg h2] at h
      by_cases h3 : p.decay_rate ^ (e / p.inactivity_decay_period % U32) < U128
      · rw [if_pos h3] at h
        exact absurd h (by simp)
      · rw [if_neg h3] at h
        injection h with h
        exact h.symm
  · rw [if_neg h1] at h
    exact absurd h (by simp)

theorem timeWeightStep_eq_ok {p : ReputationParams} {e : Nat}
    (h1 : 0 < p.inactivity_decay_period) (h2 : timeWeightSpec p e < U128) :
    timeWeightStep p e = .ok (timeWeightSpec p e) := by
  unfold timeWeightSpec at h2 ⊢
  simp only [timeWeightStep]
  by_cases hd : p.inactivity_decay_period < e
  · rw [if_pos hd] at h2
    rw [if_pos hd, if_pos hd,
      if_neg (by omega : ¬ p.inactivity_decay_period = 0), if_pos h2]
  · rw [if_neg hd] at h2
    rw [if_neg hd, if_neg hd]

theorem timeWeightStep_eq_panic_of_pow {p : ReputationParams} {e : Nat}
    (hd : p.inactivity_decay_period < e) (h1 : 0 < p.inactivity_decay_period)
    (h2 : U128 ≤ timeWeightSpec p e) :
    timeWeightStep p e = .error .panic := by
  unfold timeWeightSpec at h2
  rw [if_pos hd] at h2
  simp only [timeWeightStep]
  rw [if_pos hd, if_neg (by omega : ¬ p.inactivity_decay_period = 0),
    if_neg (by omega : ¬ p.decay_rate ^ (e / p.inactivity_decay_period % U32) < U128)]

theorem volumeWeightStep_ok_inv {u : UserReputation} {p : ReputationParams} {w : Nat}
    (h : volumeWeightStep u p = .ok w) : w = volumeWeightSpec u p := by
  simp only [volumeWeightStep] at h
  unfold volumeWeightSpec
  by_cases h1 : u.transaction_volume * p.volume_weight_factor / 100 < U128
  · rw [if_pos h1] at h
    injection h with h
    exact h.symm
  · rw [if_neg h1] at h
    exact absurd h (by simp)

theorem volumeWeightStep_err_inv {u : UserReputation} {p : ReputationParams}
    {e' : ContractErr} (h : volumeWeightStep u p = .error e') : e' = .panic := by
  simp only [volumeWeightStep] at h
  by_cases h1 : u.transaction_volume * p.volume_weight_factor / 100 < U128
  · rw [if_pos h1] at h
    exact absurd h (by simp)
  · rw [if_neg h1] at h
    injection h with h
    exact h.symm

theorem volumeWeightStep_eq_ok {u : UserReputation} {p : ReputationParams}
    (h : volumeWeightSpec u p < U128) :
    volumeWeightStep u p = .ok (volumeWeightSpec u p) := by
  unfold volumeWeightSpec at h ⊢
  simp only [volumeWeightStep]
  rw [if_pos h]

theorem disputePenaltyStep_ok_inv {u : UserReputation} {p : ReputationParams} {w : Nat}
    (h : disputePenaltyStep u p = .ok w) : w = disputePenaltySpec u p := by
  simp only [disputePenaltyStep] at h
  unfold disputePenaltySpec
  by_cases h1 : 0 < u.disputed_reviews
  · rw [if_pos h1] at h
    rw [if_pos h1]
    by_cases h2 : u.disputed_reviews * p.dispute_penalty < U32
    · rw [if_pos h2] at h
      injection h with h
      exact h.symm
    · rw [if_neg h2] at h
      exact absurd h (by simp)
  · rw [if_neg h1] at h
    rw [if_neg h1]
    injection h with h
    exact h.symm

theorem disputePenaltyStep_err_inv {u : UserReputation} {p : ReputationParams}
    {e' : ContractErr} (h : disputePenaltyStep u p = .error e') : e' = .panic := by
  simp only [disputePenaltyStep] at h
  by_cases h1 : 0 < u.disputed_reviews
  · rw [if_pos h1] at h
    by_cases h2 : u.disputed_reviews * p.dispute_penalty < U32
    · rw [if_pos h2] at h
      exact absurd h (by simp)
    · rw [if_neg h2] at h
      injection h with h
      exact h.symm
  · rw [if_neg h1] at h
    exact absurd h (by simp)

theorem disputePenaltyStep_eq_ok {u : UserReputation} {p : ReputationParams}
    (h : u.disputed_reviews * p.dispute_penalty < U32) :
    disputePenaltyStep u p = .ok (disputePenaltySpec u p) := by
  simp only [disputePenaltyStep]
  unfold disputePenaltySpec
  by_cases h1 : 0 < u.disputed_reviews
  · rw [if_pos h1, if_pos h, if_pos h1]
  · rw [if_neg h1, if_neg h1]

theorem disputePenaltyStep_eq_panic {u : UserReputation} {p : ReputationParams}
    (h0 : 0 < u.disputed_reviews) (h : U32 ≤ u.disputed_reviews * p.dispute_penalty) :
    disputePenaltyStep u p = .error .panic := by
  simp only [disputePenaltyStep]
  rw [if_pos h0, if_neg (by omega : ¬ u.disputed_reviews * p.dispute_penalty < U32)]

/-- On success the Scoring Engine returns exactly the (truncated-exponent)
formula value, which is below `Uint128::MAX`: nothing ever wraps. -/
theorem calc_ok_inv {u : UserReputation} {p : ReputationParams} {t : Nat} {v : Nat}
    (h : calculate_reputation_score u p t = .ok v) :
    v = scoreSpec u p t ∧ v < U128 := by
  simp only [calculate_reputation_score] at h
  by_cases hu : seconds t < seconds u.last_activity
  · rw [if_pos hu] at h
    exact absurd h (by simp)
  rw [if_neg hu] at h
  split at h
  · exact absurd h (by simp)
  rename_i tw htw
  split at h
  · exact absurd h (by simp)
  rename_i vw hvw
  split at h
  · exact absurd h (by simp)
  rename_i dp hdp
  by_cases hm : (u.total_reviews - u.disputed_reviews) * tw < U128
  · rw [if_pos hm] at h
    by_cases ha : (u.total_reviews - u.disputed_reviews) * tw + vw < U128
    · rw [if_pos ha] at h
      injection h with h
      rw [timeWeightStep_ok_inv htw] at hm ha h
      rw [volumeWeightStep_ok_inv hvw] at ha h
      rw [disputePenaltyStep_ok_inv hdp] at h
      have he : seconds t - seconds u.last_activity = elapsedSec u t := rfl
      rw [he] at hm ha h
      refine ⟨?_, ?_⟩
      · rw [← h]
        unfold scoreSpec baseSpec
        rfl
      · rw [← h]
        unfold baseSpec at *
        omega
    · rw [if_neg ha] at h
      exact absurd h (by simp)
  · rw [if_neg hm] at h
    exact absurd h (by simp)

/-- All error exits of the Scoring Engine are panics or overflows, never
`NotFound`/`InvalidInput`. -/
theorem calc_err_inv {u : UserReputation} {p : ReputationParams} {t : Nat}
    {e : ContractErr} (h : calculate_reputation_score u p t = .error e) :
    e = .panic ∨ e = .overflow := by
  simp only [calculate_reputation_score] at h
  by_cases hu : seconds t < seconds u.last_activity
  · rw [if_pos hu] at h
    injection h with h
    exact Or.inl h.symm
  rw [if_neg hu] at h
  split at h
  · rename_i e' htw
    injection h with h
    rw [← h]
    exact Or.inl (timeWeightStep_err_inv htw)
  rename_i tw htw
  split at h
  · rename_i e' hvw
    injection h with h
    rw [← h]
    exact Or.inl (volumeWeightStep_err_inv hvw)
  rename_i vw hvw
  split at h
  · rename_i e' hdp
    injection h with h
    rw [← h]
    exact Or.inl (disputePenaltyStep_err_inv hdp)
  rename_i dp hdp
  by_cases hm : (u.total_reviews - u.disputed_reviews) * tw < U128
  · rw [if_pos hm] at h
    by_cases ha : (u.total_reviews - u.disputed_reviews) * tw + vw < U128
    · rw [if_pos ha] at h
      exact absurd h (by simp)
    · rw [if_neg ha] at h
      injection h with h
      exact Or.inr h.symm
  · rw [if_neg hm] at h
    injection h with h
    exact Or.inr h.symm

theorem timeWeightStep_eq_ok_of_imp {p : ReputationParams} {e : Nat}
    (hc : p.inactivity_decay_period < e → 0 < p.inactivity_decay_period)
    (h2 : timeWeightSpec p e < U128) :
    timeWeightStep p e = .ok (timeWeightSpec p e) := by
  by_cases hd : p.inactivity_decay_period < e
  · exact timeWeightStep_eq_ok (hc hd) h2
  · unfold timeWeightSpec at h2 ⊢
    simp only [timeWeightStep]
    rw [if_neg hd] at h2
    rw [if_neg hd, if_neg hd]

theorem calc_err_tw {u : UserReputation} {p : ReputationParams} {t : Nat}
    {e : ContractErr} (h0 : seconds u.last_activity ≤ seconds t)
    (htw : timeWeightStep p (elapsedSec u t) = .error e) :
    calculate_reputation_score u p t = .error e := by
  have hns : ¬ seconds t < seconds u.last_activity := not_lt.mpr h0
  have he : seconds t - seconds u.last_activity = elapsedSec u t := rfl
  simp only [calculate_reputation_score, if_neg hns, he, htw]

theorem calc_err_dp {u : UserReputation} {p : ReputationParams} {t : Nat}
    {e : ContractErr} {tw vw : Nat} (h0 : seconds u.last_activity ≤ seconds t)
    (htw : timeWeightStep p (elapsedSec u t) = .ok tw)
    (hvw : volumeWeightStep u p = .ok vw)
    (hdp : disputePenaltyStep u p = .error e) :
    calculate_reputation_score u p t = .error e := by
  have hns : ¬ seconds t < seconds u.last_activity := not_lt.mpr h0
  have he : seconds t - seconds u.last_activity = elapsedSec u t := rfl
  simp only [calculate_reputation_score, if_neg hns, he, htw, hvw, hdp]

theorem calc_overflow_mul {u : UserReputation} {p : ReputationParams} {t : Nat}
    {tw vw dp : Nat} (h0 : seconds u.last_activity ≤ seconds t)
    (htw : timeWeightStep p (elapsedSec u t) = .ok tw)
    (hvw : volumeWeightStep u p = .ok vw)
    (hdp : disputePenaltyStep u p = .ok dp)
    (hm : ¬ (u.total_reviews - u.disputed_reviews) * tw < U128) :
    calculate_reputation_score u p t = .error .overflow := by
  have hns : ¬ seconds t < seconds u.last_activity := not_lt.mpr h0
  have he : seconds t - seconds u.last_activity = elapsedSec u t := rfl
  simp only [calculate_reputation_score, if_neg hns, he, htw, hvw, hdp, if_neg hm]

theorem calc_overflow_add {u : UserReputation} {p : ReputationParams} {t : Nat}
    {tw vw dp : Nat} (h0 : seconds u.last_activity ≤ seconds t)
    (htw : timeWeightStep p (elapsedSec u t) = .ok tw)
    (hvw : volumeWeightStep u p = .ok vw)
    (hdp : disputePenaltyStep u p = .ok dp)
    (hm : (u.total_reviews - u.disputed_reviews) * tw < U128)
    (ha : ¬ (u.total_reviews - u.disputed_reviews) * tw + vw < U128) :
    calculate_reputation_score u p t = .error .overflow := by
  have hns : ¬ seconds t < seconds u.last_activity := not_lt.mpr h0
  have he : seconds t - seconds u.last_activity = elapsedSec u t := rfl
  simp only [calculate_reputation_score, if_neg hns, he, htw, hvw, hdp,
    if_pos hm, if_neg ha]

/-- Refinement: under the no-overflow side conditions (with the exponent
reduced modulo 2^32 and a non-zero decay period) the Scoring Engine
returns the spec formula value. -/
theorem calc_eq_ok {u : UserReputation} {p : ReputationParams} {t : Nat}
    (h0 : seconds u.last_activity ≤ seconds t)
    (h1 : 0 < p.inactivity_decay_period)
    (h2 : timeWeightSpec p (elapsedSec u t) < U128)
    (h3 : volumeWeightSpec u p < U128)
    (h4 : u.disputed_reviews * p.dispute_penalty < U32)
    (h5 : baseSpec u * timeWeightSpec p (elapsedSec u t) < U128)
    (h6 : baseSpec u * timeWeightSpec p (elapsedSec u t) + volumeWeightSpec u p < U128) :
    calculate_reputation_score u p t = .ok (scoreSpec u p t) := by
  have hns : ¬ seconds t < seconds u.last_activity := not_lt.mpr h0
  have he : seconds t - seconds u.last_activity = elapsedSec u t := rfl
  have htw := timeWeightStep_eq_ok h1 h2
  have hvw := volumeWeightStep_eq_ok h3
  have hdp := disputePenaltyStep_eq_ok h4
  unfold baseSpec at h5 h6
  simp only [calculate_reputation_score, if_neg hns, he, htw, hvw, hdp,
    if_pos h5, if_pos h6]
  unfold scoreSpec baseSpec
  rfl

theorem resolveAll_err_of_missing {ids : List String} {reviews : List (String × Review)}
    {d : String} (hd : d ∈ ids) (hmiss : lookupS reviews d = none) :
    resolveAll ids reviews = .error .notFound := by
  induction ids with
  | nil => simp at hd
  | cons i rest ih =>
    rcases List.mem_cons.mp hd with h | h
    · subst h
      simp [resolveAll, hmiss]
    · unfold resolveAll
      cases hi : lookupS reviews i with
      | none => rfl
      | some r => rw [ih h]

theorem mem_filterKeys {p : Review → Bool} {l : List (String × Review)} {x : String}
    (h : x ∈ filterKeys p l) : ∃ v, (x, v) ∈ l ∧ p v = true := by
  unfold filterKeys at h
  rcases List.mem_map.mp h with ⟨kv, hkv, hx⟩
  rcases List.mem_filter.mp hkv with ⟨hmem, hp⟩
  exact ⟨kv.2, by rw [← hx]; exact hmem, hp⟩

theorem not_eq_true_of_false {b : Bool} (h : b = false) : ¬ b = true := by
  simp [h]

theorem insertId_forall_lt {k : String} {xs : List String}
    (h : ∀ x ∈ xs, strLt k x = true) : insertId k xs = k :: xs := by
  cases xs with
  | nil => rfl
  | cons x xs =>
    unfold insertId
    rw [if_pos (h x (List.mem_cons_self _ _))]

theorem insertId_cons_gt {k x : String} {xs : List String}
    (h1 : strLt k x = false) (h2 : k ≠ x) :
    insertId k (x :: xs) = x :: insertId k xs := by
  simp only [insertId]
  rw [if_neg (not_eq_true_of_false h1), if_neg h2]

theorem filterKeys_insertS {p : Review → Bool} {l : List (String × Review)}
    {k : String} {v : Review} (hs : SortedKeys l) (hp : p v = true) :
    filterKeys p (insertS k v l) = insertId k (filterKeys p l) := by
  induction l with
  | nil => simp [insertS, filterKeys, insertId, hp]
  | cons kv₁ rest ih =>
    obtain ⟨k₁, v₁⟩ := kv₁
    obtain ⟨hall, hrest⟩ := List.pairwise_cons.mp hs
    simp only [insertS]
    split_ifs with h1 h2
    · -- new key in front
      rw [show filterKeys p ((k, v) :: (k₁, v₁) :: rest)
            = k :: filterKeys p ((k₁, v₁) :: rest) by simp [filterKeys, hp]]
      rw [insertId_forall_lt]
      intro x hx
      rcases mem_filterKeys hx with ⟨v', hv', _⟩
      rcases List.mem_cons.mp hv' with h' | h'
      · injection h' with hk _
        rw [hk]; exact h1
      · exact strLt_trans h1 (hall _ h')
    · -- overwrite at the head key
      subst h2
      rw [show filterKeys p ((k, v) :: rest) = k :: filterKeys p rest by
        simp [filterKeys, hp]]
      by_cases hp₁ : p v₁ = true
      · rw [show filterKeys p ((k, v₁) :: rest) = k :: filterKeys p rest by
          simp [filterKeys, hp₁]]
        unfold insertId
        rw [if_neg (by rw [strLt_irrefl]; exact Bool.false_ne_true), if_pos rfl]
      · rw [show filterKeys p ((k, v₁) :: rest) = filterKeys p rest by
          simp [filterKeys, hp₁]]
        rw [insertId_forall_lt]
        intro x hx
        rcases mem_filterKeys hx with ⟨v', hv', _⟩
        exact hall _ hv'
    · -- key goes further down
      have h1' : strLt k k₁ = false := by
        cases h : strLt k k₁ with
        | true => exact absurd h h1
        | false => rfl
      by_cases hp₁ : p v₁ = true
      · rw [show filterKeys p ((k₁, v₁) :: insertS k v rest)
              = k₁ :: filterKeys p (insertS k v rest) by simp [filterKeys, hp₁]]
        rw [show filterKeys p ((k₁, v₁) :: rest) = k₁ :: filterKeys p rest by
          simp [filterKeys, hp₁]]
        rw [ih hrest, insertId_cons_gt h1' h2]
      · rw [show filterKeys p ((k₁, v₁) :: insertS k v rest)
              = filterKeys p (insertS k v rest) by simp [filterKeys, hp₁]]
        rw [show filterKeys p ((k₁, v₁) :: rest) = filterKeys p rest by
          simp [filterKeys, hp₁]]
        exact ih hrest

theorem sorted_filterKeys {p : Review → Bool} {l : List (String × Review)}
    (hs : SortedKeys l) :
    (filterKeys p l).Pairwise (fun a b => strLt a b = true) := by
  unfold filterKeys
  rw [List.pairwise_map]
  exact hs.filter _

theorem insertId_of_mem {k : String} {xs : List String}
    (hs : xs.Pairwise (fun a b => strLt a b = true)) (hm : k ∈ xs) :
    insertId k xs = xs := by
  induction xs with
  | nil => simp at hm
  | cons x rest ih =>
    obtain ⟨hall, hrest⟩ := List.pairwise_cons.mp hs
    unfold insertId
    rcases List.mem_cons.mp hm with h | h
    · subst h
      rw [if_neg (by rw [strLt_irrefl]; exact Bool.false_ne_true), if_pos rfl]
    · have hx : strLt x k = true := hall _ h
      rw [if_neg (by rw [strLt_asymm hx]; exact Bool.false_ne_true),
        if_neg (fun he => by rw [he, strLt_irrefl] at hx; exact Bool.noConfusion hx),
        ih hrest h]

theorem resolveAll_pointwise {l : List (String × Review)} {xs : List (String × Review)}
    (h : ∀ kv ∈ xs, lookupS l kv.1 = some kv.2) :
    resolveAll (xs.map (fun kv => kv.1)) l = .ok (xs.map (fun kv => kv.2)) := by
  induction xs with
  | nil => rfl
  | cons kv rest ih =>
    unfold resolveAll
    simp only [List.map_cons]
    rw [h kv (List.mem_cons_self _ _), ih (fun kv' h' => h kv' (List.mem_cons_of_mem _ h'))]

/-- Resolving the filtered key list of a sorted ledger returns exactly the
filtered reviews, in ledger order. -/
theorem resolveAll_filterKeys {p : Review → Bool} {l : List (String × Review)}
    (hs : SortedKeys l) :
    resolveAll (filterKeys p l) l =
      .ok ((l.filter (fun kv => p kv.2)).map (fun kv => kv.2)) := by
  unfold filterKeys
  exact resolveAll_pointwise (fun kv hkv =>
    lookupS_of_mem hs (List.mem_filter.mp hkv).1)

/-- On a state whose index partition for `u` mirrors the sorted ledger, a
successful recomputation stores exactly the aggregate of the ledger
reviews of `u`. -/
theorem update_sync_inv {st : State} {u : String} {now : Nat} {st' : State}
    (hs : SortedKeys st.reviews) (hsync : IndexSyncAt st u)
    (hok : update_user_reputation st u now = .ok st') :
    ∃ score,
      st' = { st with
        users := insertS u (recomputedRep st u now (ledgerReviews st u) score) st.users } := by
  obtain ⟨p, revs, score, hp, hr, hc, hst⟩ := update_ok_inv hok
  rw [hsync] at hr
  unfold fkeys at hr
  rw [resolveAll_filterKeys hs] at hr
  injection hr with hrevs
  rw [← hrevs] at hst
  exact ⟨score, hst⟩

theorem recomputedRep_total (st : State) (u : String) (now : Nat) (revs : List Review)
    (score : Nat) : (recomputedRep st u now revs score).total_reviews = revs.length % U32 :=
  rfl

theorem recomputedRep_disputed (st : State) (u : String) (now : Nat) (revs : List Review)
    (score : Nat) : (recomputedRep st u now revs score).disputed_reviews
      = (revs.filter (fun r => r.is_disputed)).length % U32 :=
  rfl

theorem recomputedRep_last_activity (st : State) (u : String) (now : Nat)
    (revs : List Review) (score : Nat) :
    (recomputedRep st u now revs score).last_activity = now :=
  rfl

theorem recomputedRep_score (st : State) (u : String) (now : Nat)
    (revs : List Review) (score : Nat) :
    (recomputedRep st u now revs score).reputation_score = score :=
  rfl

theorem submit_ok_inv {st : State} {now : Nat} {sender service : String} {rating : Nat}
    {content transaction_proof : String} {signature : List Nat} {st' : State}
    (hok : submit_review st now sender service rating content transaction_proof signature
      = .ok st') :
    ¬ (rating < 1 ∨ 5 < rating) ∧
    update_user_reputation
      (submitState st now sender service rating content transaction_proof signature)
      sender now = .ok st' := by
  unfold submit_review at hok
  by_cases hg : rating < 1 ∨ 5 < rating
  · rw [if_pos hg] at hok
    exact absurd hok (by simp)
  · rw [if_neg hg] at hok
    exact ⟨hg, hok⟩

theorem flag_ok_inv {st : State} {now : Nat} {caller review_id reason : String}
    {review : Review} {st' : State}
    (hrev : lookupS st.reviews review_id = some review)
    (hok : flag_dispute st now caller review_id reason = .ok st') :
    update_user_reputation (flagState st review_id review reason) review.reviewer now
      = .ok st' := by
  unfold flag_dispute at hok
  rw [hrev] at hok
  exact hok

theorem mem_filterKeys_of_lookup {p : Review → Bool} {l : List (String × Review)}
    {k : String} {r : Review} (h : lookupS l k = some r) (hp : p r = true) :
    k ∈ filterKeys p l := by
  unfold filterKeys
  exact List.mem_map.mpr ⟨(k, r), List.mem_filter.mpr ⟨mem_of_lookupS h, hp⟩, rfl⟩

/-- The index partition of the submitter still mirrors the ledger after
the two writes of `submit_review`. -/
theorem submitState_sync {st : State} {now : Nat} {sender service : String}
    {rating : Nat} {content transaction_proof : String} {signature : List Nat}
    (hs : SortedKeys st.reviews) (hsu : SortedKeys st.userReviews)
    (hsync : IndexSyncAt st sender) :
    IndexSyncAt
      (submitState st now sender service rating content transaction_proof signature)
      sender := by
  unfold IndexSyncAt submitState fkeys
  show indexIds (indexInsert sender (mkReviewId now sender) st.userReviews) sender = _
  rw [indexIds_indexInsert_self hsu]
  unfold IndexSyncAt fkeys at hsync
  rw [hsync, filterKeys_insertS hs (by simp [mkReview])]

/-- The reviewer's index partition still mirrors the ledger after the
dispute overwrite (the key was already present with the same reviewer). -/
theorem flagState_sync {st : State} {review_id reason : String} {review : Review}
    (hs : SortedKeys st.reviews)
    (hrev : lookupS st.reviews review_id = some review)
    (hsync : IndexSyncAt st review.reviewer) :
    IndexSyncAt (flagState st review_id review reason) review.reviewer := by
  unfold IndexSyncAt flagState fkeys
  show indexIds st.userReviews review.reviewer = _
  unfold IndexSyncAt fkeys at hsync
  rw [hsync, filterKeys_insertS hs (by simp [flaggedReview])]
  rw [insertId_of_mem (sorted_filterKeys hs)
    (mem_filterKeys_of_lookup hrev (by simp))]

theorem countsOk_of_insert (st1 : State) (u : String) (now score : Nat)
    (hlen : st1.reviews.length < U32) :
    CountsOk { st1 with
      users := insertS u (recomputedRep st1 u now (ledgerReviews st1 u) score) st1.users } u := by
  have h1 : (st1.reviews.filter (fun kv => decide (kv.2.reviewer = u))).length
      < U32 := lt_of_le_of_lt (List.length_filter_le _ _) hlen
  have h2 : ((st1.reviews.filter (fun kv => decide (kv.2.reviewer = u))).filter
        (fun kv => kv.2.is_disputed)).length < U32 :=
    lt_of_le_of_lt (List.length_filter_le _ _) h1
  refine ⟨recomputedRep st1 u now (ledgerReviews st1 u) score,
    lookupS_insertS_self _ _ _, ?_, ?_, ?_⟩
  · rw [recomputedRep_total]
    unfold ledgerReviews
    rw [List.length_map, Nat.mod_eq_of_lt h1]
    rfl
  · rw [recomputedRep_disputed]
    unfold ledgerReviews
    rw [List.filter_map, List.length_map]
    simp only [Function.comp_def]
    rw [Nat.mod_eq_of_lt h2]
    rfl
  · rw [recomputedRep_disputed, recomputedRep_total]
    unfold ledgerReviews
    rw [List.filter_map, List.length_map, List.length_map]
    simp only [Function.comp_def]
    rw [Nat.mod_eq_of_lt h2, Nat.mod_eq_of_lt h1]
    exact List.length_filter_le _ _

/-! ## Claim theorems -/

/-- C1 (code bug): the spec says the decay formula must see the
*pre-update* `last_activity` so that the decay branch fires for a user
inactive longer than `inactivity_decay_period`.  The code assigns
`last_activity = env.block.time` (line 105) before scoring (line 108), so
the elapsed time inside the Scoring Engine is always zero and the decay
branch never fires: for a user whose stored `last_activity` is six decay
periods old, the recomputation stores `base * time_weight_factor = 10`,
not the decay value `decay_rate ^ 6`. -/
theorem c1_decay_never_triggers :
    (∃ rec, lookupS stC1.users "u1" = some rec ∧
      pFix.inactivity_decay_period < seconds nowC1 - seconds rec.last_activity) ∧
    (update_user_reputation stC1 "u1" nowC1).map
        (fun st' => (lookupS st'.users "u1").map (fun r => r.reputation_score))
      = .ok (some pFix.time_weight_factor) ∧
    pFix.time_weight_factor
      ≠ pFix.decay_rate ^ ((seconds nowC1 - 0) / pFix.inactivity_decay_period) := by
  refine ⟨⟨recC1, by decide, by decide⟩, by decide, by decide⟩

/-- C2 counterexample: at a 130-second elapsed time with decay base 2,
the decay power 2^130 exceeds the 128-bit range, yet
`calculate_reputation_score` does not return an `Overflow` error — it
panics (`Uint128::pow` aborts). -/
theorem c2_overflow_counterexample :
    calculate_reputation_score uC2 pC2 tC2 = .error .panic ∧
    calculate_reputation_score uC2 pC2 tC2 ≠ .error .overflow ∧
    U128 ≤ pC2.decay_rate ^ (elapsedSec uC2 tC2 / pC2.inactivity_decay_period) := by
  refine ⟨by decide, by decide, by decide⟩

/-- C2 (amended): only the checked weighted multiplication and addition
surface an `Overflow` error.  An out-of-range decay power and an
out-of-range 32-bit dispute product abort with a panic (a hard failure,
but not a returned `Overflow` error); on success nothing has wrapped: the
returned value is exactly the (truncated-exponent) formula value and is
below 2^128. -/
theorem c2_overflow_surfacing (u : UserReputation) (p : ReputationParams) (t : Nat) :
    (seconds u.last_activity ≤ seconds t →
      p.inactivity_decay_period < elapsedSec u t →
      0 < p.inactivity_decay_period →
      U128 ≤ timeWeightSpec p (elapsedSec u t) →
      calculate_reputation_score u p t = .error .panic) ∧
    (seconds u.last_activity ≤ seconds t →
      (p.inactivity_decay_period < elapsedSec u t → 0 < p.inactivity_decay_period) →
      timeWeightSpec p (elapsedSec u t) < U128 →
      volumeWeightSpec u p < U128 →
      0 < u.disputed_reviews →
      U32 ≤ u.disputed_reviews * p.dispute_penalty →
      calculate_reputation_score u p t = .error .panic) ∧
    (seconds u.last_activity ≤ seconds t →
      (p.inactivity_decay_period < elapsedSec u t → 0 < p.inactivity_decay_period) →
      timeWeightSpec p (elapsedSec u t) < U128 →
      volumeWeightSpec u p < U128 →
      u.disputed_reviews * p.dispute_penalty < U32 →
      U128 ≤ baseSpec u * timeWeightSpec p (elapsedSec u t) →
      calculate_reputation_score u p t = .error .overflow) ∧
    (seconds u.last_activity ≤ seconds t →
      (p.inactivity_decay_period < elapsedSec u t → 0 < p.inactivity_decay_period) →
      timeWeightSpec p (elapsedSec u t) < U128 →
      volumeWeightSpec u p < U128 →
      u.disputed_reviews * p.dispute_penalty < U32 →
      baseSpec u * timeWeightSpec p (elapsedSec u t) < U128 →
      U128 ≤ baseSpec u * timeWeightSpec p (elapsedSec u t) + volumeWeightSpec u p →
      calculate_reputation_score u p t = .error .overflow) ∧
    (∀ v, calculate_reputation_score u p t = .ok v →
      v = scoreSpec u p t ∧ v < U128) := by
  refine ⟨?_, ?_, ?_, ?_, fun v h => calc_ok_inv h⟩
  · intro h0 hd hP hpow
    exact calc_err_tw h0 (timeWeightStep_eq_panic_of_pow hd hP hpow)
  · intro h0 hP htw hvw hd hprod
    exact calc_err_dp h0 (timeWeightStep_eq_ok_of_imp hP htw)
      (volumeWeightStep_eq_ok hvw) (disputePenaltyStep_eq_panic hd hprod)
  · intro h0 hP htw hvw hprod hm
    refine calc_overflow_mul h0 (timeWeightStep_eq_ok_of_imp hP htw)
      (volumeWeightStep_eq_ok hvw) (disputePenaltyStep_eq_ok hprod) ?_
    unfold baseSpec at hm
    omega
  · intro h0 hP htw hvw hprod hm ha
    refine calc_overflow_add h0 (timeWeightStep_eq_ok_of_imp hP htw)
      (volumeWeightStep_eq_ok hvw) (disputePenaltyStep_eq_ok hprod) ?_ ?_
    · unfold baseSpec at hm
      omega
    · unfold baseSpec at ha
      omega

/-- Witness for C2 (amended): the pow-overflow conjunct fires on the
concrete counterexample input, and the no-wrap conjunct evaluates on a
concrete success. -/
theorem c2_overflow_surfacing_witness :
    calculate_reputation_score uC2 pC2 tC2 = .error .panic ∧
    (10 = scoreSpec uC2 pFix 0 ∧ 10 < U128) := by
  refine ⟨(c2_overflow_surfacing uC2 pC2 tC2).1 (by decide) (by decide) (by decide)
    (by decide), (c2_overflow_surfacing uC2 pFix 0).2.2.2.2 10 (by decide)⟩

theorem elapsed_tC3_eval : elapsedSec uC2 tC3 = 4294967296 := by decide

theorem timeWeightClaimed_tC3_eval : timeWeightClaimed pC3 4294967296 = 0 := by
  unfold timeWeightClaimed
  rw [if_pos (by decide)]
  have hdiv : (4294967296 : Nat) / pC3.inactivity_decay_period = 4294967296 := by
    decide
  rw [hdiv]
  exact zero_pow (by decide)

theorem scoreClaimed_def (u : UserReputation) (p : ReputationParams) (t : Nat) :
    scoreClaimed u p t = baseSpec u * timeWeightClaimed p (elapsedSec u t)
      + volumeWeightSpec u p - disputePenaltySpec u p := rfl

theorem scoreClaimed_tC3_eval : scoreClaimed uC2 pC3 tC3 = 0 := by
  have ha : baseSpec uC2 * (0 : Nat) + volumeWeightSpec uC2 pC3
      - disputePenaltySpec uC2 pC3 = 0 := by decide
  rw [scoreClaimed_def, elapsed_tC3_eval, timeWeightClaimed_tC3_eval]
  exact ha

theorem claimed_tC3_no_overflow :
    baseSpec uC2 * timeWeightClaimed pC3 (elapsedSec uC2 tC3)
      + volumeWeightSpec uC2 pC3 < U128 := by
  have hb : baseSpec uC2 * (0 : Nat) + volumeWeightSpec uC2 pC3 < U128 := by decide
  rw [elapsed_tC3_eval, timeWeightClaimed_tC3_eval]
  exact hb

/-- C3 counterexample: with `decay_rate = 0`, `inactivity_decay_period =
1` and an elapsed time of 2^32 seconds, the `as u32` cast truncates the
period count 2^32 to 0, so the code computes `0 ^ 0 = 1` and returns 1,
while the claimed (untruncated) formula yields `0 ^ 2^32 = 0`; no
intermediate quantity is anywhere near the 128-bit range.  Furthermore,
with `inactivity_decay_period = 0` and any positive elapsed time, the
code panics on division by zero instead of returning a value. -/
theorem c3_score_formula_counterexample :
    calculate_reputation_score uC2 pC3 tC3 = .ok 1 ∧
    scoreClaimed uC2 pC3 tC3 = 0 ∧
    (1 : Nat) ≠ 0 ∧
    baseSpec uC2 * timeWeightClaimed pC3 (elapsedSec uC2 tC3)
      + volumeWeightSpec uC2 pC3 < U128 ∧
    calculate_reputation_score uC2 pC3b 1000000000 = .error .panic :=
  ⟨by decide, scoreClaimed_tC3_eval, by decide, claimed_tC3_no_overflow, by decide⟩

/-- C3 (amended): for every record, parameter set and current time with
`last_activity ≤ current time` and `inactivity_decay_period > 0`, when no
intermediate quantity leaves its machine range, the Scoring Engine
returns exactly `max(0, base*timeWeight + volumeWeight - disputePenalty)`
with the decay exponent truncated to 32 bits: `timeWeight = decay_rate ^
((elapsed / inactivity_decay_period) mod 2^32)` in the decay branch. -/
theorem c3_score_formula (u : UserReputation) (p : ReputationParams) (t : Nat)
    (h0 : u.last_activity ≤ t)
    (h1 : 0 < p.inactivity_decay_period)
    (h2 : timeWeightSpec p (elapsedSec u t) < U128)
    (h3 : volumeWeightSpec u p < U128)
    (h4 : u.disputed_reviews * p.dispute_penalty < U32)
    (h5 : baseSpec u * timeWeightSpec p (elapsedSec u t) < U128)
    (h6 : baseSpec u * timeWeightSpec p (elapsedSec u t) + volumeWeightSpec u p
      < U128) :
    calculate_reputation_score u p t = .ok (scoreSpec u p t) :=
  calc_eq_ok (Nat.div_le_div_right h0) h1 h2 h3 h4 h5 h6

/-- Witness for C3 (amended): a concrete decay-branch evaluation
(`decay_rate = 2`, three one-second periods, score `1 * 2^3 = 8`). -/
theorem c3_score_formula_witness :
    calculate_reputation_score uC2 pC2 3000000000 = .ok (scoreSpec uC2 pC2 3000000000)
      ∧ scoreSpec uC2 pC2 3000000000 = 8 :=
  ⟨c3_score_formula uC2 pC2 3000000000 (by decide) (by decide) (by decide) (by decide)
    (by decide) (by decide) (by decide), by decide⟩

/-- C6: submission with a rating below 1 or above 5 fails with
`InvalidInput` before any write; the store is left untouched (an error
result applies no state in the transactional model). -/
theorem c6_invalid_rating_rejected (st : State) (now : Nat) (sender service : String)
    (rating : Nat) (content transaction_proof : String) (signature : List Nat)
    (h : rating < 1 ∨ 5 < rating) :
    submit_review st now sender service rating content transaction_proof signature
      = .error .invalidInput := by
  unfold submit_review
  rw [if_pos h]

/-- Witness for C6 at ratings 0 and 6 on a concrete state. -/
theorem c6_invalid_rating_rejected_witness :
    submit_review stC1 nowC1 "u1" "s" 0 "c" "p" [] = .error .invalidInput ∧
    submit_review stC1 nowC1 "u1" "s" 6 "c" "p" [] = .error .invalidInput :=
  ⟨c6_invalid_rating_rejected stC1 nowC1 "u1" "s" 0 "c" "p" [] (Or.inl (by decide)),
   c6_invalid_rating_rejected stC1 nowC1 "u1" "s" 6 "c" "p" [] (Or.inr (by decide))⟩

/-- C9: a successful `flag_dispute` changes only `is_disputed` and
`dispute_reason` of the flagged review (all other fields are preserved),
leaves every other Ledger entry unchanged, and leaves the User Review
Index (and the params) untouched. -/
theorem c9_flag_dispute_frame (st : State) (now : Nat) (caller review_id reason : String)
    (review : Review) (st' : State)
    (hrev : lookupS st.reviews review_id = some review)
    (hok : flag_dispute st now caller review_id reason = .ok st') :
    (∃ r', lookupS st'.reviews review_id = some r' ∧
      r'.id = review.id ∧ r'.service = review.service ∧ r'.rating = review.rating ∧
      r'.content = review.content ∧ r'.reviewer = review.reviewer ∧
      r'.timestamp = review.timestamp ∧
      r'.transaction_proof = review.transaction_proof ∧
      r'.signature = review.signature ∧
      r'.is_disputed = true ∧ r'.dispute_reason = some reason) ∧
    (∀ k, k ≠ review_id → lookupS st'.reviews k = lookupS st.reviews k) ∧
    st'.userReviews = st.userReviews ∧
    st'.params = st.params := by
  have hok1 := flag_ok_inv hrev hok
  obtain ⟨p, revs, score, hp, hr, hc, hst⟩ := update_ok_inv hok1
  subst hst
  refine ⟨⟨flaggedReview review reason, lookupS_insertS_self _ _ _,
    rfl, rfl, rfl, rfl, rfl, rfl, rfl, rfl, rfl, rfl⟩, ?_, rfl, rfl⟩
  intro k hk
  exact lookupS_insertS_ne _ _ hk

/-- Witness for C9 on the concrete dispute of the review stored in `stC1`. -/
theorem c9_flag_dispute_frame_witness :
    (∃ r', lookupS stC9.reviews "5-u1" = some r' ∧
      r'.id = rFix.id ∧ r'.service = rFix.service ∧ r'.rating = rFix.rating ∧
      r'.content = rFix.content ∧ r'.reviewer = rFix.reviewer ∧
      r'.timestamp = rFix.timestamp ∧
      r'.transaction_proof = rFix.transaction_proof ∧
      r'.signature = rFix.signature ∧
      r'.is_disputed = true ∧ r'.dispute_reason = some "bad") ∧
    (∀ k, k ≠ "5-u1" → lookupS stC9.reviews k = lookupS stC1.reviews k) ∧
    stC9.userReviews = stC1.userReviews ∧
    stC9.params = stC1.params :=
  c9_flag_dispute_frame stC1 nowC1 "admin" "5-u1" "bad" rFix stC9 (by decide) (by decide)

theorem calc_score_congr {u₁ u₂ : UserReputation} {p : ReputationParams} {t : Nat}
    (h1 : u₁.total_reviews = u₂.total_reviews)
    (h2 : u₁.disputed_reviews = u₂.disputed_reviews)
    (h3 : u₁.last_activity = u₂.last_activity)
    (h4 : u₁.transaction_volume = u₂.transaction_volume) :
    calculate_reputation_score u₁ p t = calculate_reputation_score u₂ p t := by
  unfold calculate_reputation_score volumeWeightStep disputePenaltyStep
  rw [h1, h2, h3, h4]

/-- C7: recomputation is idempotent — running `update_user_reputation`
again on its own successful output, with the same `now` and no other
change, returns exactly the same state (hence the same stored
`UserReputation`). -/
theorem c7_recompute_idempotent (st : State) (u : String) (now : Nat) (st' : State)
    (hok : update_user_reputation st u now = .ok st') :
    update_user_reputation st' u now = .ok st' := by
  obtain ⟨p, revs, score, hp, hr, hc, hst⟩ := update_ok_inv hok
  subst hst
  have hcong : calculate_reputation_score
      (aggRep { st with
        users := insertS u (recomputedRep st u now revs score) st.users } u now revs) p now
      = calculate_reputation_score (aggRep st u now revs) p now := by
    refine calc_score_congr rfl rfl rfl ?_
    simp only [aggRep, lookupS_insertS_self, Option.getD_some]
    rfl
  have hret := @update_ok_of { st with
      users := insertS u (recomputedRep st u now revs score) st.users }
    u now p revs score hp hr (hcong.trans hc)
  rw [hret]
  have hR : recomputedRep { st with
      users := insertS u (recomputedRep st u now revs score) st.users } u now revs score
      = recomputedRep st u now revs score := by
    unfold recomputedRep aggRep
    simp only [lookupS_insertS_self, Option.getD_some]
  rw [hR, insertS_idem]

/-- Witness for C7: recomputing twice on the concrete post-dispute state
is a fixpoint. -/
theorem c7_recompute_idempotent_witness :
    update_user_reputation stC9 "u1" nowC1 = .ok stC9 := by
  have h1 : update_user_reputation
      { stC9 with users := [("u1", recC1)] } "u1" nowC1 = .ok stC9 := by decide
  exact c7_recompute_idempotent _ "u1" nowC1 stC9 h1

/-- C4: after every successful `submit_review` by `u`, and after every
successful `flag_dispute` on a review whose reviewer is `u`, the stored
`UserReputation` for `u` has `total_reviews` equal to the number of
Ledger entries with `reviewer == u`, `disputed_reviews` equal to the
number of those entries with `is_disputed == true`, and
`disputed_reviews ≤ total_reviews`.  Stated over pre-states satisfying
the reachable-state representation invariants (sorted stores, the index
partition of `u` mirroring the ledger) with the ledger below the `u32` capacity
of the stored counters. -/
theorem c4_reputation_counts (st : State) (now : Nat) (st' : State) :
    (∀ sender service rating content transaction_proof signature,
      SortedKeys st.reviews → SortedKeys st.userReviews → IndexSyncAt st sender →
      st.reviews.length + 1 < U32 →
      submit_review st now sender service rating content transaction_proof signature
        = .ok st' →
      CountsOk st' sender) ∧
    (∀ caller review_id reason review,
      SortedKeys st.reviews → IndexSyncAt st review.reviewer →
      st.reviews.length + 1 < U32 →
      lookupS st.reviews review_id = some review →
      flag_dispute st now caller review_id reason = .ok st' →
      CountsOk st' review.reviewer) := by
  constructor
  · intro sender service rating content transaction_proof signature hs hsu hsync hlen hok
    obtain ⟨hg, hok1⟩ := submit_ok_inv hok
    obtain ⟨score, hst'⟩ := update_sync_inv (sorted_insertS _ _ hs)
      (submitState_sync hs hsu hsync) hok1
    rw [hst']
    exact countsOk_of_insert _ sender now score
      (lt_of_le_of_lt (length_insertS_le _ _ _) hlen)
  · intro caller review_id reason review hs hsync hlen hrev hok
    have hok1 := flag_ok_inv hrev hok
    obtain ⟨score, hst'⟩ := update_sync_inv (sorted_insertS _ _ hs)
      (flagState_sync hs hrev hsync) hok1
    rw [hst']
    exact countsOk_of_insert _ review.reviewer now score
      (lt_of_le_of_lt (length_insertS_le _ _ _) hlen)

theorem update_err_kind {st : State} {u : String} {now : Nat} {p : ReputationParams}
    {e : ContractErr} (hp : st.params = some p) (hs : SortedKeys st.reviews)
    (hsync : IndexSyncAt st u)
    (h : update_user_reputation st u now = .error e) :
    e = .panic ∨ e = .overflow := by
  unfold update_user_reputation at h
  split at h
  · rename_i hnone
    rw [hp] at hnone
    exact absurd hnone (by simp)
  rename_i p' hp'
  split at h
  · rename_i e' hr
    rw [hsync] at hr
    unfold fkeys at hr
    rw [resolveAll_filterKeys hs] at hr
    exact absurd hr (by simp)
  rename_i revs hr
  split at h
  · rename_i e' hcerr
    injection h with h
    rw [← h]
    exact calc_err_inv hcerr
  · exact absurd h (by simp)

/-- C5: `flag_dispute` fails with `NotFound` (state untouched) iff no
review with the given id exists; otherwise, on success, it sets the
review's `is_disputed` to true and `dispute_reason` to `Some(reason)`
(overwriting any prior reason) and recomputes the reputation of the
review's original reviewer — the stored record at the reviewer's address
is rewritten with `last_activity = now` while every other address is
untouched — and the result never depends on the caller.  Stated over
well-formed states (params set, sorted ledger, reviewer's index partition
mirroring the ledger). -/
theorem c5_flag_dispute_contract (st : State) (now : Nat)
    (caller review_id reason : String) (p : ReputationParams)
    (hp : st.params = some p) (hs : SortedKeys st.reviews)
    (hsync : ∀ r, lookupS st.reviews review_id = some r → IndexSyncAt st r.reviewer) :
    (flag_dispute st now caller review_id reason = .error .notFound ↔
      lookupS st.reviews review_id = none) ∧
    (∀ review st', lookupS st.reviews review_id = some review →
      flag_dispute st now caller review_id reason = .ok st' →
      lookupS st'.reviews review_id = some (flaggedReview review reason) ∧
      (flaggedReview review reason).is_disputed = true ∧
      (flaggedReview review reason).dispute_reason = some reason ∧
      (∀ a, a ≠ review.reviewer → lookupS st'.users a = lookupS st.users a) ∧
      (∃ rec, lookupS st'.users review.reviewer = some rec ∧
        rec.last_activity = now)) ∧
    (∀ caller₂, flag_dispute st now caller review_id reason
      = flag_dispute st now caller₂ review_id reason) := by
  refine ⟨?_, ?_, fun caller₂ => rfl⟩
  · cases hl : lookupS st.reviews review_id with
    | none =>
      refine ⟨fun _ => rfl, fun _ => ?_⟩
      unfold flag_dispute
      rw [hl]
    | some review =>
      refine ⟨fun herr => ?_, fun hnone => absurd hnone (by simp)⟩
      simp only [flag_dispute, hl] at herr
      rcases @update_err_kind (flagState st review_id review reason)
        review.reviewer now p ContractErr.notFound hp (sorted_insertS _ _ hs)
        (flagState_sync hs hl (hsync review hl)) herr with h | h <;> simp at h
  · intro review st' hl hok
    have hok1 := flag_ok_inv hl hok
    obtain ⟨score, hst'⟩ := update_sync_inv (sorted_insertS _ _ hs)
      (flagState_sync hs hl (hsync review hl)) hok1
    subst hst'
    refine ⟨lookupS_insertS_self _ _ _, rfl, rfl, ?_, ?_⟩
    · intro a ha
      exact lookupS_insertS_ne _ _ ha
    · exact ⟨_, lookupS_insertS_self _ _ _, recomputedRep_last_activity _ _ _ _ _⟩

/-- Witness for C5: the `NotFound` iff on a missing id, and the success
conclusions on the concrete dispute of the review stored in `stC1`. -/
theorem c5_flag_dispute_contract_witness :
    (flag_dispute stC1 nowC1 "admin" "zzz" "r" = .error .notFound ↔
      lookupS stC1.reviews "zzz" = none) ∧
    (lookupS stC9.reviews "5-u1" = some (flaggedReview rFix "bad") ∧
      (flaggedReview rFix "bad").is_disputed = true ∧
      (flaggedReview rFix "bad").dispute_reason = some "bad" ∧
      (∀ a, a ≠ rFix.reviewer → lookupS stC9.users a = lookupS stC1.users a) ∧
      (∃ rec, lookupS stC9.users rFix.reviewer = some rec ∧
        rec.last_activity = nowC1)) := by
  constructor
  · exact (c5_flag_dispute_contract stC1 nowC1 "admin" "zzz" "r" pFix (by decide)
      (by decide)
      (fun r hr => by
        rw [show lookupS stC1.reviews "zzz" = none from by decide] at hr
        exact absurd hr (by simp))).1
  · exact (c5_flag_dispute_contract stC1 nowC1 "admin" "5-u1" "bad" pFix (by decide)
      (by decide)
      (fun r hr => by
        rw [show lookupS stC1.reviews "5-u1" = some rFix from by decide] at hr
        injection hr with hr
        rw [← hr]
        decide)).2.1 rFix stC9 (by decide) (by decide)

/-- Witness for C4: both the submission arm (Scenario A) and the dispute
arm (Scenario B) on concrete states. -/
theorem c4_reputation_counts_witness :
    CountsOk stAfterSubmit "u1" ∧ CountsOk stC9 "u1" := by
  constructor
  · exact (c4_reputation_counts stEmpty 5000000000 stAfterSubmit).1
      "u1" "s1" 5 "good" "proof" [1]
      (by decide) (by decide) (by decide) (by decide) (by decide)
  · exact (c4_reputation_counts stC1 nowC1 stC9).2
      "admin" "5-u1" "bad" rFix
      (by decide) (by decide) (by decide) (by decide) (by decide)

theorem ratingInRange_min {mn : Nat} {mx : Option Nat} {r : Nat}
    (h : ratingInRange (some mn) mx r = true) : mn ≤ r := by
  cases mx with
  | none =>
    simp only [ratingInRange, decide_eq_true_eq] at h
    exact h
  | some mx =>
    simp only [ratingInRange, Bool.and_eq_true, decide_eq_true_eq] at h
    exact h.1

theorem ratingInRange_max {mn : Option Nat} {mx r : Nat}
    (h : ratingInRange mn (some mx) r = true) : r ≤ mx := by
  cases mn with
  | none =>
    simp only [ratingInRange, decide_eq_true_eq] at h
    exact h
  | some mn =>
    simp only [ratingInRange, Bool.and_eq_true, decide_eq_true_eq] at h
    exact h.2

theorem queryEntries_subset {st : State} {sa : Option String} {kv : String × Review}
    (h : kv ∈ queryEntries st sa) : kv ∈ st.reviews := by
  cases sa with
  | none => exact h
  | some c => exact List.mem_of_mem_filter h

theorem queryEntries_sorted {st : State} (sa : Option String)
    (hs : SortedKeys st.reviews) : SortedKeys (queryEntries st sa) := by
  cases sa with
  | none => exact hs
  | some c => exact hs.filter _

theorem queryEntries_cursor {st : State} {c : String} {kv : String × Review}
    (h : kv ∈ queryEntries st (some c)) : strLt c kv.1 = true :=
  (List.mem_filter.mp h).2

/-- C8: `query_reviews` returns at most `min(limit, 30)` results (10 when
no limit is supplied; an over-cap limit is clamped, not rejected — the
query is total); every returned review satisfies the optional inclusive
rating bounds, is non-disputed when `include_disputed` is false, and the
results are in strictly ascending identifier order, all strictly after
the optional cursor.  Stated over states with a sorted ledger whose
stored `id` fields agree with their keys. -/
theorem c8_query_reviews_bounds (st : State) (start_after : Option String)
    (limit : Option Nat) (min_rating max_rating : Option Nat)
    (include_disputed : Bool)
    (hs : SortedKeys st.reviews)
    (hid : ∀ kv ∈ st.reviews, kv.2.id = kv.1) :
    (query_reviews st start_after limit min_rating max_rating include_disputed).length
      ≤ min (limit.getD DEFAULT_LIMIT) MAX_LIMIT ∧
    (∀ r ∈ query_reviews st start_after limit min_rating max_rating include_disputed,
      (∀ mn, min_rating = some mn → mn ≤ r.rating) ∧
      (∀ mx, max_rating = some mx → r.rating ≤ mx) ∧
      (include_disputed = false → r.is_disputed = false) ∧
      (∀ c, start_after = some c → strLt c r.id = true)) ∧
    (query_reviews st start_after limit min_rating max_rating
      include_disputed).Pairwise (fun a b => strLt a.id b.id = true) := by
  refine ⟨?_, ?_, ?_⟩
  · unfold query_reviews
    rw [List.length_map, List.length_take]
    exact min_le_left _ _
  · intro r hr
    unfold query_reviews at hr
    rcases List.mem_map.mp hr with ⟨kv, hkv, hres⟩
    have hkvf := List.take_subset _ _ hkv
    obtain ⟨hkvE, hpred⟩ := List.mem_filter.mp hkvf
    have hmem : kv ∈ st.reviews := queryEntries_subset hkvE
    unfold queryPred at hpred
    rw [Bool.and_eq_true] at hpred
    obtain ⟨hrat, hdis⟩ := hpred
    refine ⟨?_, ?_, ?_, ?_⟩
    · intro mn hmn
      rw [← hres]
      subst hmn
      exact ratingInRange_min hrat
    · intro mx hmx
      rw [← hres]
      subst hmx
      exact ratingInRange_max hrat
    · intro hinc
      rw [← hres]
      rw [hinc] at hdis
      simp only [Bool.false_or, Bool.not_eq_true'] at hdis
      exact hdis
    · intro c hc
      rw [← hres]
      subst hc
      show strLt c kv.2.id = true
      rw [hid kv hmem]
      exact queryEntries_cursor hkvE
  · unfold query_reviews
    rw [List.pairwise_map]
    have h1 : ((queryEntries st start_after).filter
        (queryPred min_rating max_rating include_disputed)).Pairwise
        (fun a b => strLt a.1 b.1 = true) := (queryEntries_sorted _ hs).filter _
    have h2 := List.Pairwise.sublist
      (List.take_sublist (min (limit.getD DEFAULT_LIMIT) MAX_LIMIT) _) h1
    refine h2.imp_of_mem ?_
    intro a b ha hb hab
    have hma : a ∈ st.reviews :=
      queryEntries_subset (List.mem_filter.mp (List.take_subset _ _ ha)).1
    have hmb : b ∈ st.reviews :=
      queryEntries_subset (List.mem_filter.mp (List.take_subset _ _ hb)).1
    show strLt a.2.id b.2.id = true
    rw [hid a hma, hid b hmb]
    exact hab

/-- Witness for C8: Scenario D-style query (`min_rating=4, max_rating=5,
include_disputed=false`) with an over-cap limit of 50 and a cursor. -/
theorem c8_query_reviews_bounds_witness :
    (query_reviews stQ (some "1") (some 50) (some 4) (some 5) false).length
      ≤ min ((some 50).getD DEFAULT_LIMIT) MAX_LIMIT ∧
    (∀ r ∈ query_reviews stQ (some "1") (some 50) (some 4) (some 5) false,
      (∀ mn, (some 4 : Option Nat) = some mn → mn ≤ r.rating) ∧
      (∀ mx, (some 5 : Option Nat) = some mx → r.rating ≤ mx) ∧
      (false = false → r.is_disputed = false) ∧
      (∀ c, (some "1" : Option String) = some c → strLt c r.id = true)) ∧
    (query_reviews stQ (some "1") (some 50) (some 4) (some 5)
      false).Pairwise (fun a b => strLt a.id b.id = true) :=
  c8_query_reviews_bounds stQ (some "1") (some 50) (some 4) (some 5) false
    (by decide) (by decide)

theorem filterMap_ext {α β : Type} {f g : α → Option β} (h : ∀ a, f a = g a)
    (l : List α) : l.filterMap f = l.filterMap g := by
  induction l with
  | nil => rfl
  | cons x xs ih => rw [List.filterMap_cons, List.filterMap_cons, h x, ih]

theorem filterMap_filter_ne {β : Type} {f : String → Option β} {d : String}
    (hf : f d = none) (l : List String) :
    (l.filter (fun x => decide (x ≠ d))).filterMap f = l.filterMap f := by
  induction l with
  | nil => rfl
  | cons x xs ih =>
    rw [List.filter_cons]
    by_cases hx : x = d
    · subst hx
      rw [if_neg (by simp), ih, List.filterMap_cons, hf]
    · rw [if_pos (by simp [hx]), List.filterMap_cons, List.filterMap_cons]
      cases hfx : f x with
      | none => rw [ih]
      | some b => rw [ih]

/-- C10: when the User Review Index holds an id that does not resolve in
the Ledger, `query_user_reputation` still returns `Ok`, silently
excluding the dangling entry from the windowed counts (the counts equal
those over the index entries other than the dangling one), whereas the
aggregator's recomputation aborts the whole operation with `NotFound` on
the same state. -/
theorem c10_query_tolerates_dangling (st : State) (u : String) (rep : UserReputation)
    (d : String) (now : Nat) (p : ReputationParams)
    (hrep : lookupS st.users u = some rep)
    (hd : d ∈ indexIds st.userReviews u)
    (hmiss : lookupS st.reviews d = none)
    (hp : st.params = some p) :
    (∃ resp, query_user_reputation st u none none = .ok resp ∧
      resp.total_reviews
        = (((indexIds st.userReviews u).filter (fun i => decide (i ≠ d))).filterMap
            (fun i => lookupS st.reviews i)).length % U32 ∧
      resp.disputed_reviews
        = ((((indexIds st.userReviews u).filter (fun i => decide (i ≠ d))).filterMap
            (fun i => lookupS st.reviews i)).filter
              (fun r => r.is_disputed)).length % U32) ∧
    update_user_reputation st u now = .error .notFound := by
  have hfix : ∀ i, (match lookupS st.reviews i with
      | none => none
      | some r => if windowOk none none r then some r else none)
      = lookupS st.reviews i := by
    intro i
    cases h : lookupS st.reviews i with
    | none => rfl
    | some r => rfl
  refine ⟨?_, update_resolve_err hp (resolveAll_err_of_missing hd hmiss)⟩
  simp only [query_user_reputation, hrep]
  refine ⟨_, rfl, ?_, ?_⟩
  · show ((indexIds st.userReviews u).filterMap (fun i =>
      match lookupS st.reviews i with
      | none => none
      | some r => if windowOk none none r then some r else none)).length % U32 = _
    rw [filterMap_ext hfix, ← filterMap_filter_ne hmiss]
  · show (((indexIds st.userReviews u).filterMap (fun i =>
      match lookupS st.reviews i with
      | none => none
      | some r => if windowOk none none r then some r else none)).filter
        (fun r => r.is_disputed)).length % U32 = _
    rw [filterMap_ext hfix, ← filterMap_filter_ne hmiss]

/-- Witness for C10 on the concrete dangling-index state. -/
theorem c10_query_tolerates_dangling_witness :
    (∃ resp, query_user_reputation stC10 "u1" none none = .ok resp ∧
      resp.total_reviews
        = (((indexIds stC10.userReviews "u1").filter
            (fun i => decide (i ≠ "5-u1"))).filterMap
              (fun i => lookupS stC10.reviews i)).length % U32 ∧
      resp.disputed_reviews
        = ((((indexIds stC10.userReviews "u1").filter
            (fun i => decide (i ≠ "5-u1"))).filterMap
              (fun i => lookupS stC10.reviews i)).filter
                (fun r => r.is_disputed)).length % U32) ∧
    update_user_reputation stC10 "u1" 0 = .error .notFound :=
  c10_query_tolerates_dangling stC10 "u1" recC1 "5-u1" 0 pFix
    (by decide) (by decide) (by decide) (by decide)

end NexusMarket

